import Mathlib

/-!
Verification development for the share-and-tell scan-and-render engine
(`electron-app` shared TypeScript core: `scanDirectory`, `runAndWrite`,
`renderJson`, `renderCsv`, `renderHtml` and their helpers).

Modelling conventions:
* Canonical absolute filesystem paths are modelled as lists of path segments
  (`FsPath`); `path.join(dir, name)` becomes `dir ++ [name]` and the rendered
  string form of a path is `pathToString`.
* The filesystem is a value of type `FS`: `realpath` resolves a root path
  string, and `listing` returns, for each directory, either the directory
  entries (as Node's `withFileTypes` Dirents: name plus the `isFile`,
  `isDirectory`, `isSymbolicLink` flags) or an error message (the rejected
  `readdir` error's `.message`).
* JavaScript numbers used for depths and thresholds are modelled as `Int`
  (the code guards against negative values); file counts are list lengths
  (`Nat`), compared against the `Int` threshold by coercion.
* `localeCompare`-based sorting is modelled as lexicographic code-point
  comparison on the compared strings (`decide (a ≤ b)` on `String`), and
  JavaScript's stable `Array.prototype.sort` as `List.mergeSort`.
* A JavaScript object used as a string-keyed map is modelled as an
  association list; later assignments overwrite earlier ones, so lookup
  takes the last matching binding (`lookupComment`).
-/

/-- A canonical absolute path, as the list of its segments. -/
abbrev FsPath : Type := List String

/-- The rendered string form of a canonical absolute path (`/` separated,
leading slash, as produced by `realpath` on a POSIX system). -/
def pathToString (p : FsPath) : String :=
  "/" ++ String.intercalate "/" p

/-- One directory entry as returned by `readdir(dir, { withFileTypes: true })`. -/
structure Dirent where
  name : String
  isFile : Bool
  isDirectory : Bool
  isSymbolicLink : Bool
deriving DecidableEq

/-- The filesystem as seen by the scanner: `realpath` canonicalizes the root
path string, `listing` lists a directory or fails with an error message. -/
structure FS where
  realpath : String → Except String FsPath
  listing : FsPath → Except String (List Dirent)

/-- The `FolderInfo` from `types.ts` (one qualifying directory record). -/
structure FolderInfo where
  absolutePath : FsPath
  relativePath : String
  depth : Int
  fileCount : Nat
  comment : Option String
deriving DecidableEq

/-- The `ScanResult` from `types.ts`. -/
structure ScanResult where
  folders : List FolderInfo
  warnings : List String
deriving DecidableEq

/-- A comment-map key: either an absolute path or a root-relative one
(`path.isAbsolute(key)` distinguishes the two in `normaliseComments`),
modelled with its segments pre-split. -/
inductive CommentKey where
  | abs (p : FsPath)
  | rel (segs : List String)
deriving DecidableEq

/-- The `ScanOptions` from `types.ts` (`comments ?? {}` is modelled by an empty
list). -/
structure ScanOptions where
  rootPath : String
  maxDepth : Int
  minFiles : Int
  comments : List (CommentKey × String)

/-- Resolution of one comment-map key against the resolved root
(`path.isAbsolute(key) ? key : path.join(root, key)`, then `path.resolve`,
which is the identity on the already-canonical segment form). -/
def resolveKey (root : FsPath) (k : CommentKey) : FsPath :=
  match k with
  | .abs p => p
  | .rel segs => root ++ segs

/-- The `normaliseComments`: resolves each key against the resolved root when it
is not absolute, and keys the map by the resolved absolute path. -/
def normaliseComments (comments : List (CommentKey × String)) (root : FsPath) :
    List (FsPath × String) :=
  comments.map (fun kv => (resolveKey root kv.1, kv.2))

/-- Lookup in the normalised comment map (`commentMap[dirPath]`); a JS object
keeps the last assignment for a repeated key, hence `getLast?`. -/
def lookupComment (m : List (FsPath × String)) (p : FsPath) : Option String :=
  ((m.filter (fun kv => decide (kv.1 = p))).getLast?).map Prod.snd

/-- The `toRelativePath`: `path.relative(root, target)` joined with `/`, `"."`
for the root itself.  In the scanner `target` always extends `root`, so the
relative path is the remaining segments. -/
def toRelativePath (root target : FsPath) : String :=
  let rel := String.intercalate "/" (List.drop (List.length root) target)
  if rel = "" then "." else rel

/-- The warning string pushed when listing a directory fails. -/
def skipMsg (p : FsPath) (e : String) : String :=
  "Skipped " ++ pathToString p ++ ": " ++ e

/-- Comparison used for all `localeCompare` sorts, modelled as code-point
lexicographic string comparison (stated on the underlying character lists,
which coincides with `String` order by `String.le_iff_toList_le`). -/
def strLe (a b : String) : Bool := decide (a.data ≤ b.data)

/-- Ordering of child directory paths (the code sorts the joined path
strings). -/
def pathLe (a b : FsPath) : Bool := strLe (pathToString a) (pathToString b)

/-- The child-directory filter: `entry.isDirectory() && !entry.isSymbolicLink()`. -/
def keepDirEntry (ent : Dirent) : Bool := ent.isDirectory && !ent.isSymbolicLink

/-- The sorted child-directory paths pushed by one loop iteration. -/
def childDirs (p : FsPath) (entries : List Dirent) : List FsPath :=
  ((entries.filter keepDirEntry).map (fun ent => p ++ [ent.name])).mergeSort pathLe

/-- Direct regular-file count of a listing. -/
def countFiles (entries : List Dirent) : Nat :=
  (entries.filter (fun ent => ent.isFile)).length

/-- The `FolderRecord` pushed for a recorded directory. -/
def scanRecord (root : FsPath) (cm : List (FsPath × String)) (dirPath : FsPath)
    (depth : Int) (fileCount : Nat) : FolderInfo :=
  { absolutePath := dirPath
    relativePath := toRelativePath root dirPath
    depth := depth
    fileCount := fileCount
    comment := some ((lookupComment cm dirPath).getD "") }

/-- An explicit-stack frame (`DirectoryFrame`). -/
structure ScanFrame where
  dirPath : FsPath
  depth : Int

/-- Upper bound on the number of loop iterations a frame can cause; used as
the termination measure of the traversal. -/
def sizeBound (fs : FS) (maxDepth : Int) (p : FsPath) (depth : Int) : Nat :=
  if maxDepth < depth then 1
  else
    match fs.listing p with
    | .error _ => 1
    | .ok entries =>
        1 + ((childDirs p entries).map (fun c => sizeBound fs maxDepth c (depth + 1))).sum
termination_by (maxDepth + 1 - depth).toNat
decreasing_by omega

/-- Termination measure of the whole stack. -/
def stackMeasure (fs : FS) (maxDepth : Int) (stack : List ScanFrame) : Nat :=
  (stack.map (fun fr => sizeBound fs maxDepth fr.dirPath fr.depth)).sum

/-- The explicit-stack scan loop of `scanDirectory` (`while (stack.length > 0)`),
with the folder and warning accumulators passed explicitly. -/
def scanLoop (fs : FS) (maxDepth minFiles : Int) (root : FsPath)
    (cm : List (FsPath × String)) :
    List ScanFrame → List FolderInfo → List String → List FolderInfo × List String
  | [], folders, warnings => (folders, warnings)
  | fr :: stack, folders, warnings =>
    if hd : maxDepth < fr.depth then
      scanLoop fs maxDepth minFiles root cm stack folders warnings
    else
      match hl : fs.listing fr.dirPath with
      | .error e =>
          scanLoop fs maxDepth minFiles root cm stack folders
            (warnings ++ [skipMsg fr.dirPath e])
      | .ok entries =>
          let fileCount := countFiles entries
          let folders' :=
            if fr.depth = 0 ∨ minFiles ≤ (fileCount : Int) then
              folders ++ [scanRecord root cm fr.dirPath fr.depth fileCount]
            else folders
          scanLoop fs maxDepth minFiles root cm
            ((childDirs fr.dirPath entries).map (fun c => ⟨c, fr.depth + 1⟩) ++ stack)
            folders' warnings
termination_by stack _ _ => stackMeasure fs maxDepth stack
decreasing_by
  · have h1 : 1 ≤ sizeBound fs maxDepth fr.dirPath fr.depth := by
      rw [sizeBound]
      repeat' split
      all_goals omega
    simp only [stackMeasure, List.map_cons, List.sum_cons]
    omega
  · have h1 : 1 ≤ sizeBound fs maxDepth fr.dirPath fr.depth := by
      rw [sizeBound]
      repeat' split
      all_goals omega
    simp only [stackMeasure, List.map_cons, List.sum_cons]
    omega
  · simp only [stackMeasure, List.map_cons, List.sum_cons, List.map_append,
      List.sum_append, List.map_map, Function.comp_def]
    rw [sizeBound]
    simp [hd, hl]

/-- Ordering of the final folder sort (`folderLabel(a).localeCompare(folderLabel(b))`). -/
def folderLabel (f : FolderInfo) : String :=
  let label := String.mk (f.relativePath.data.map (fun c => if c = '\\' then '/' else c))
  if label.length > 0 then label else "."

def labelLe (a b : FolderInfo) : Bool := strLe (folderLabel a) (folderLabel b)

/-- The `scanDirectory` from the shared scanner: validates the options, resolves
the root, runs the stack loop from the root frame, and returns the folders
sorted by relative label together with the warnings. -/
def scanDirectory (fs : FS) (opts : ScanOptions) : Except String ScanResult :=
  if opts.maxDepth < 0 then .error "maxDepth must be zero or greater"
  else if opts.minFiles < 0 then .error "minFiles must be zero or greater"
  else
    match fs.realpath opts.rootPath with
    | .error e => .error e
    | .ok resolvedRoot =>
        let commentMap := normaliseComments opts.comments resolvedRoot
        let scanned := scanLoop fs opts.maxDepth opts.minFiles resolvedRoot commentMap
          [⟨resolvedRoot, 0⟩] [] []
        .ok { folders := scanned.1.mergeSort labelLe, warnings := scanned.2 }

/-- Recursive reference form of one frame's contribution to the scan: the
folders and warnings produced by the subtree rooted at `p` (visited at
`depth`), in traversal order. -/
def visit (fs : FS) (maxDepth minFiles : Int) (root : FsPath)
    (cm : List (FsPath × String)) (p : FsPath) (depth : Int) :
    List FolderInfo × List String :=
  if maxDepth < depth then ([], [])
  else
    match fs.listing p with
    | .error e => ([], [skipMsg p e])
    | .ok entries =>
        let fileCount := countFiles entries
        let here :=
          if depth = 0 ∨ minFiles ≤ (fileCount : Int) then
            [scanRecord root cm p depth fileCount]
          else []
        let sub := (childDirs p entries).map
          (fun c => visit fs maxDepth minFiles root cm c (depth + 1))
        (here ++ (sub.map Prod.fst).flatten, (sub.map Prod.snd).flatten)
termination_by (maxDepth + 1 - depth).toNat
decreasing_by omega

/-- The directories whose listing failed in the subtree visit of `p`, with the
error messages, in traversal order. -/
def errList (fs : FS) (maxDepth : Int) (p : FsPath) (depth : Int) :
    List (FsPath × String) :=
  if maxDepth < depth then []
  else
    match fs.listing p with
    | .error e => [(p, e)]
    | .ok entries =>
        ((childDirs p entries).map (fun c => errList fs maxDepth c (depth + 1))).flatten
termination_by (maxDepth + 1 - depth).toNat
decreasing_by omega

/-- The directories the traversal pops with `depth ≤ maxDepth` and attempts to
list, in traversal order. -/
def visitedPaths (fs : FS) (maxDepth : Int) (p : FsPath) (depth : Int) :
    List FsPath :=
  if maxDepth < depth then []
  else
    match fs.listing p with
    | .error _ => [p]
    | .ok entries =>
        p :: ((childDirs p entries).map (fun c => visitedPaths fs maxDepth c (depth + 1))).flatten
termination_by (maxDepth + 1 - depth).toNat
decreasing_by omega

/-- A directory frame the traversal can reach: the root at depth 0, and each
listed (non-symlink) child directory of a reached directory that was itself
popped with `depth ≤ maxDepth` and listed successfully. -/
inductive Reaches (fs : FS) (maxDepth : Int) (root : FsPath) : FsPath → Int → Prop where
  | base : Reaches fs maxDepth root root 0
  | step {p : FsPath} {d : Int} {entries : List Dirent} {c : FsPath} :
      Reaches fs maxDepth root p d → ¬ maxDepth < d → fs.listing p = .ok entries →
      c ∈ childDirs p entries → Reaches fs maxDepth root c (d + 1)

/-- Hypothesis that directory listings never repeat a (non-symlink) directory
entry name, as on a real filesystem. -/
def NodupListings (fs : FS) : Prop :=
  ∀ p es, fs.listing p = .ok es →
    ((es.filter keepDirEntry).map (fun ent => ent.name)).Nodup

/-- The filesystem of the C2 counterexample: the root canonicalizes but its
listing fails with a permission error. -/
def cexFS : FS :=
  { realpath := fun s => if s = "/share" then .ok ["share"] else .error "ENOENT"
    listing := fun _ => .error "EACCES" }

def cexOpts : ScanOptions :=
  { rootPath := "/share", maxDepth := 3, minFiles := 0, comments := [] }

/-- Root listing of the worked example: one file, two real subdirectories,
and one symbolic-link directory entry. -/
def exEntRoot : List Dirent :=
  [{ name := "a.txt", isFile := true, isDirectory := false, isSymbolicLink := false },
   { name := "docs", isFile := false, isDirectory := true, isSymbolicLink := false },
   { name := "link", isFile := false, isDirectory := true, isSymbolicLink := true },
   { name := "locked", isFile := false, isDirectory := true, isSymbolicLink := false }]

def exEntDocs : List Dirent :=
  [{ name := "b.txt", isFile := true, isDirectory := false, isSymbolicLink := false },
   { name := "c.txt", isFile := true, isDirectory := false, isSymbolicLink := false }]

/-- The worked example filesystem: `/share` holds `a.txt`, `docs` (two files),
`locked` (listing fails with `EACCES`) and a symlinked directory `link`
(pointing back into the tree). -/
def exFS : FS :=
  { realpath := fun s => if s = "/share" then .ok ["share"] else .error "ENOENT"
    listing := fun p =>
      if p = ["share"] then .ok exEntRoot
      else if p = ["share", "docs"] then .ok exEntDocs
      else if p = ["share", "locked"] then .error "EACCES"
      else .error "ENOENT" }

def exOpts : ScanOptions :=
  { rootPath := "/share", maxDepth := 2, minFiles := 2,
    comments := [(.rel ["docs"], "Documents")] }

def exRootRec : FolderInfo :=
  { absolutePath := ["share"], relativePath := ".", depth := 0, fileCount := 1,
    comment := some "" }

def exDocsRec : FolderInfo :=
  { absolutePath := ["share", "docs"], relativePath := "docs", depth := 1, fileCount := 2,
    comment := some "Documents" }

def exRes : ScanResult :=
  { folders := [exRootRec, exDocsRec]
    warnings := ["Skipped /share/locked: EACCES"] }

/-- A character the tabular escaper must quote (`/[",\n]/`). -/
def isCsvSpecial (c : Char) : Bool := c = '"' ∨ c = ',' ∨ c = '\n'

/-- The quote-doubling step of `csvEscape` at character level. -/
def doubleQuotes : List Char → List Char
  | [] => []
  | c :: cs => if c = '"' then '"' :: '"' :: doubleQuotes cs else c :: doubleQuotes cs

/-- The `csvEscape` at character level: wrap in quotes, doubling internal quotes,
when the value contains a comma, double quote, or newline. -/
def escapeData (l : List Char) : List Char :=
  if l.any isCsvSpecial then '"' :: (doubleQuotes l ++ ['"']) else l

/-- The `csvEscape` from the source, packaged through the character lists. -/
def csvEscape (s : String) : String := String.mk (escapeData s.data)

/-- One data row of `renderCsv` (`row.join(",")` with the five fields, depth
and file count rendered in base 10 and not escaped). -/
def csvRow (f : FolderInfo) : String :=
  String.intercalate ","
    [csvEscape (folderLabel f), csvEscape (pathToString f.absolutePath),
     toString f.depth, toString f.fileCount, csvEscape (f.comment.getD "")]

/-- The `renderCsv` from the source: header line, one row per folder sorted by
label, joined with newlines, with a trailing newline. -/
def renderCsv (result : ScanResult) : String :=
  String.intercalate "\n"
    ("folder,absolute_path,depth,file_count,comment" ::
      (result.folders.mergeSort labelLe).map csvRow) ++ "\n"

/-- Modelled from the spec: the standard tabular-escaping reader for one line
(state machine over the characters; a `""` inside a quoted field is a literal
quote, a comma outside quotes separates fields). -/
def splitCsv (acc : List Char) (inQ : Bool) : List Char → List (List Char)
  | [] => [acc.reverse]
  | c :: cs =>
    if inQ then
      if c = '"' then
        if cs.head? = some '"' then splitCsv ('"' :: acc) true cs.tail
        else splitCsv acc false cs
      else splitCsv (c :: acc) true cs
    else
      if c = ',' then acc.reverse :: splitCsv [] false cs
      else if c = '"' then splitCsv acc true cs
      else splitCsv (c :: acc) false cs
termination_by l => l.length
decreasing_by all_goals simp [List.length_tail] <;> omega

/-- Modelled from the spec: parse one emitted tabular line back into its
field strings. -/
def parseCsvLine (s : String) : List String :=
  (splitCsv [] false s.data).map (fun l => String.mk l)

/-- The comma-joined, escaped form of a field list (reference form of one
tabular row). -/
def joinEscaped : List (List Char) → List Char
  | [] => []
  | [v] => escapeData v
  | v :: w :: ws => escapeData v ++ ',' :: joinEscaped (w :: ws)

/-- One character of `escapeHtml`.  The source applies five sequential
`String.replace` calls with `&` first; since no later replacement's output is
re-scanned by an earlier one (only `&` is ever re-introduced, and its pass is
already done), the chain equals this single character-by-character map. -/
def escChar (c : Char) : String :=
  if c = '&' then "&amp;"
  else if c = '<' then "&lt;"
  else if c = '>' then "&gt;"
  else if c = '"' then "&quot;"
  else if c = '\x27' then "&#x27;"
  else String.singleton c

/-- The `escapeHtml` from the source. -/
def escapeHtml (s : String) : String :=
  String.join (s.data.map escChar)

/-- The `TreeNode = Map<string, TreeNode>`: an insertion-ordered map, modelled as
an ordered association list with unique keys. -/
inductive TreeNode where
  | node : List (String × TreeNode) → TreeNode

/-- The `Map.get`-style first-match lookup. -/
def treeFind (l : List (String × TreeNode)) (k : String) : Option TreeNode :=
  (l.find? (fun e => e.1 = k)).map Prod.snd

/-- Replace the value bound to an existing key, keeping insertion order. -/
def treeUpdate : List (String × TreeNode) → String → TreeNode → List (String × TreeNode)
  | [], _, _ => []
  | (k, v) :: rest, key, nv =>
      if k = key then (k, nv) :: rest else (k, v) :: treeUpdate rest key nv

/-- The cursor walk of `buildTree` for one folder: descend through existing
children (`cursor.get`), creating missing ones (`cursor.set(part, new Map())`,
which appends in insertion order). -/
def treeInsertPath : TreeNode → List String → TreeNode
  | t, [] => t
  | .node cs, part :: rest =>
      match treeFind cs part with
      | some child => .node (treeUpdate cs part (treeInsertPath child rest))
      | none => .node (cs ++ [(part, treeInsertPath (.node []) rest)])

/-- The `label.split("/")` (JavaScript `String.split` on a single-character
separator, keeping empty parts), at character level. -/
def splitSegsGo (acc : List Char) : List Char → List String
  | [] => [String.mk acc.reverse]
  | c :: cs =>
      if c = '/' then String.mk acc.reverse :: splitSegsGo [] cs
      else splitSegsGo (c :: acc) cs

/-- The label path used by `buildTree`: `[]` for the root label `"."`,
otherwise the label split on `/`. -/
def splitLabel (label : String) : List String :=
  if label = "." then [] else splitSegsGo [] label.data

/-- The `buildTree` from the source. -/
def buildTree (folders : List FolderInfo) : TreeNode :=
  folders.foldl (fun t f => treeInsertPath t (splitLabel (folderLabel f))) (.node [])

/-- Ordering of sibling outline nodes (`a[0].localeCompare(b[0])`). -/
def entryLe (a b : String × TreeNode) : Bool := strLe a.1 b.1

/-- The `renderOutline` from the source: the empty-map message, or a `<ul>` of
`<li>` items in lexical key order, each embedding the rendered child. -/
def renderOutline : TreeNode → String
  | .node cs =>
      if cs.isEmpty then "<p>No folders met the criteria.</p>"
      else
        "<ul>" ++ String.join ((cs.mergeSort entryLe).attach.map
          (fun e => "<li><span class=\"folder\">" ++ escapeHtml e.1.1 ++ "</span>" ++
            renderOutline e.1.2 ++ "</li>")) ++ "</ul>"
termination_by t => sizeOf t
decreasing_by
  obtain ⟨⟨k, t⟩, he⟩ := e
  have h2 := List.sizeOf_lt_of_mem (List.mem_mergeSort.mp he)
  simp at h2 ⊢
  omega

/-- The folders of the outline-rendering scenario: relative labels
`Finance`, `Finance/Invoices`, `HR/Policies`. -/
def c9Folders : List FolderInfo :=
  [{ absolutePath := ["share", "Finance"], relativePath := "Finance", depth := 1,
     fileCount := 4, comment := some "" },
   { absolutePath := ["share", "Finance", "Invoices"],
     relativePath := "Finance/Invoices", depth := 2, fileCount := 12,
     comment := some "" },
   { absolutePath := ["share", "HR", "Policies"], relativePath := "HR/Policies",
     depth := 2, fileCount := 7, comment := some "" }]

/-- The `<style>` block of the report template (braces written `\x7b`/`\x7d`). -/
def htmlCss : String :=
  "    body \x7b font-family: \x27Segoe UI\x27, Roboto, sans-serif; margin: 2rem; color: #222; background: #f8f9fb; \x7d\n" ++
  "    h1, h2 \x7b color: #2f3c70; \x7d\n" ++
  "    table \x7b border-collapse: collapse; width: 100%; max-width: 960px; margin-bottom: 2rem; background: #fff; box-shadow: 0 2px 6px rgba(0,0,0,0.05); \x7d\n" ++
  "    th, td \x7b border: 1px solid #dee2ed; padding: 0.6rem 0.9rem; text-align: left; \x7d\n" ++
  "    th \x7b background-color: #eef2fb; font-weight: 600; \x7d\n" ++
  "    td.num \x7b text-align: right; width: 4rem; \x7d\n" ++
  "    ul \x7b list-style-type: none; padding-left: 1.25rem; margin: 0; \x7d\n" ++
  "    ul ul \x7b border-left: 1px solid #cbd3eb; margin-left: 0.5rem; padding-left: 1.25rem; \x7d\n" ++
  "    .comment \x7b color: #5b5f7a; margin-left: 0.5rem; font-style: italic; \x7d\n" ++
  "    .warnings \x7b color: #b02a37; \x7d\n" ++
  "    .metadata \x7b margin-bottom: 1.5rem; display: flex; flex-wrap: wrap; gap: 1rem; \x7d\n" ++
  "    .metadata span \x7b display: inline-flex; align-items: center; background: #fff; border-radius: 999px; padding: 0.4rem 0.8rem; box-shadow: 0 1px 3px rgba(0,0,0,0.08); \x7d\n" ++
  "    .outline-root > .folder \x7b font-weight: 600; \x7d\n" ++
  "    .outline-root \x7b margin-left: 0.25rem; background: #fff; padding: 1rem; border-radius: 0.75rem; box-shadow: 0 2px 6px rgba(0,0,0,0.05); \x7d\n"

/-- The `path.basename(path.resolve(rootPath))`: the last `/`-separated segment
(the root path string is taken as already absolute). -/
def resolvedBasename (s : String) : String :=
  ((splitSegsGo [] s.data).getLast?).getD ""

/-- The displayed root name: the basename, or the raw root path when the
basename is empty (`|| options.rootPath`). -/
def htmlRootName (rootPath : String) : String :=
  let b := resolvedBasename rootPath
  if b = "" then rootPath else b

/-- The `rootComment` fragment: a comment span for the root record when it has
a non-empty comment (`rootInfo?.comment ? ... : ""`). -/
def rootCommentHtml (folders : List FolderInfo) : String :=
  match folders.find? (fun f => f.relativePath = ".") with
  | none => ""
  | some f =>
      match f.comment with
      | none => ""
      | some c =>
          if c = "" then ""
          else "<span class=\"comment\">" ++ escapeHtml c ++ "</span>"

/-- The `outlineHtml` template fragment. -/
def htmlOutlineSection (folders : List FolderInfo) (opts : ScanOptions) : String :=
  "\n    <div class=\"outline-root\">\n      <span class=\"folder\">" ++
    escapeHtml (htmlRootName opts.rootPath) ++ "</span>\n      " ++
    rootCommentHtml folders ++ "\n      " ++
    renderOutline (buildTree folders) ++ "\n    </div>\n  "

/-- The table rows of the folder summary, joined with `"\n"`. -/
def htmlRows (folders : List FolderInfo) : String :=
  String.intercalate "\n" (folders.map (fun f =>
    "\n        <tr>\n          <td>" ++ escapeHtml (folderLabel f) ++
    "</td>\n          <td class=\"num\">" ++ toString f.depth ++
    "</td>\n          <td class=\"num\">" ++ toString f.fileCount ++
    "</td>\n          <td>" ++ escapeHtml (f.comment.getD "") ++
    "</td>\n        </tr>\n      "))

/-- The warnings section (empty string when there are no warnings). -/
def htmlWarnings (warnings : List String) : String :=
  if warnings.isEmpty then ""
  else
    "<section><h2>Warnings</h2><ul class=\"warnings\">" ++
      String.join (warnings.map (fun w => "<li>" ++ escapeHtml w ++ "</li>")) ++
      "</ul></section>"

/-- The `renderHtml` from the source: the report template with the sorted summary
table, the outline, the warnings, and the metadata header whose `Generated`
value is the current timestamp (`new Date().toISOString()`), passed here as
the explicit argument `now`. -/
def renderHtml (result : ScanResult) (opts : ScanOptions) (now : String) : String :=
  "<!DOCTYPE html>\n<html lang=\"en\">\n<head>\n  <meta charset=\"utf-8\" />\n  <title>Share and Tell Report</title>\n  <style>\n" ++
  htmlCss ++
  "  </style>\n</head>\n<body>\n  <h1>Share and Tell Report</h1>\n  <section class=\"metadata\">\n    <span><strong>Root:</strong>&nbsp;" ++
  escapeHtml opts.rootPath ++
  "</span>\n    <span><strong>Max Depth:</strong>&nbsp;" ++
  toString opts.maxDepth ++
  "</span>\n    <span><strong>Min Files:</strong>&nbsp;" ++
  toString opts.minFiles ++
  "</span>\n    <span><strong>Generated:</strong>&nbsp;" ++
  escapeHtml now ++
  "</span>\n  </section>\n  <section>\n    <h2>Folder Summary</h2>\n    <table>\n      <thead>\n        <tr><th>Folder</th><th>Depth</th><th>Files</th><th>Comment</th></tr>\n      </thead>\n      <tbody>\n        " ++
  htmlRows (result.folders.mergeSort labelLe) ++
  "\n      </tbody>\n    </table>\n  </section>\n  <section>\n    <h2>Outline View</h2>\n    " ++
  htmlOutlineSection (result.folders.mergeSort labelLe) opts ++
  "\n  </section>\n  " ++
  htmlWarnings result.warnings ++
  "\n</body>\n</html>"

/-- Everything `renderHtml` emits before the escaped timestamp. -/
def renderHtmlPre (result : ScanResult) (opts : ScanOptions) : String :=
  "<!DOCTYPE html>\n<html lang=\"en\">\n<head>\n  <meta charset=\"utf-8\" />\n  <title>Share and Tell Report</title>\n  <style>\n" ++
  htmlCss ++
  "  </style>\n</head>\n<body>\n  <h1>Share and Tell Report</h1>\n  <section class=\"metadata\">\n    <span><strong>Root:</strong>&nbsp;" ++
  escapeHtml opts.rootPath ++
  "</span>\n    <span><strong>Max Depth:</strong>&nbsp;" ++
  toString opts.maxDepth ++
  "</span>\n    <span><strong>Min Files:</strong>&nbsp;" ++
  toString opts.minFiles ++
  "</span>\n    <span><strong>Generated:</strong>&nbsp;"

/-- Everything `renderHtml` emits after the escaped timestamp. -/
def renderHtmlPost (result : ScanResult) (opts : ScanOptions) : String :=
  "</span>\n  </section>\n  <section>\n    <h2>Folder Summary</h2>\n    <table>\n      <thead>\n        <tr><th>Folder</th><th>Depth</th><th>Files</th><th>Comment</th></tr>\n      </thead>\n      <tbody>\n        " ++
  htmlRows (result.folders.mergeSort labelLe) ++
  "\n      </tbody>\n    </table>\n  </section>\n  <section>\n    <h2>Outline View</h2>\n    " ++
  htmlOutlineSection (result.folders.mergeSort labelLe) opts ++
  "\n  </section>\n  " ++
  htmlWarnings result.warnings ++
  "\n</body>\n</html>"

/-- One character of `JSON.stringify` string escaping. -/
def jsonEscapeChar (c : Char) : String :=
  if c = '"' then "\\\""
  else if c = '\\' then "\\\\"
  else if c = '\n' then "\\n"
  else if c = '\t' then "\\t"
  else if c = '\r' then "\\r"
  else if c = '\x08' then "\\b"
  else if c = '\x0c' then "\\f"
  else if c.toNat < 32 then
    "\\u00" ++ String.mk [Nat.digitChar (c.toNat / 16), Nat.digitChar (c.toNat % 16)]
  else String.singleton c

def jsonStr (s : String) : String :=
  "\"" ++ String.join (s.data.map jsonEscapeChar) ++ "\""

/-- The JSON values `renderJson` serializes. -/
inductive Json where
  | str (s : String)
  | num (n : Int)
  | arr (xs : List Json)
  | obj (fields : List (String × Json))

def jsonIndent (n : Nat) : String := String.mk (List.replicate n ' ')

/-- The `JSON.stringify(v, null, 2)`: two-space indented rendering. -/
def jsonRender (ind : Nat) : Json → String
  | .str s => jsonStr s
  | .num n => toString n
  | .arr [] => "[]"
  | .arr xs =>
      "[\n" ++ String.intercalate ",\n" (xs.attach.map
        (fun x => jsonIndent (ind + 2) ++ jsonRender (ind + 2) x.1)) ++
      "\n" ++ jsonIndent ind ++ "]"
  | .obj [] => "\x7b\x7d"
  | .obj fs =>
      "\x7b\n" ++ String.intercalate ",\n" (fs.attach.map
        (fun kv => jsonIndent (ind + 2) ++ jsonStr kv.1.1 ++ ": " ++
          jsonRender (ind + 2) kv.1.2)) ++
      "\n" ++ jsonIndent ind ++ "\x7d"
termination_by j => sizeOf j
decreasing_by
  · have h2 := List.sizeOf_lt_of_mem x.2
    simp
    omega
  · obtain ⟨⟨k, v⟩, he⟩ := kv
    have h2 := List.sizeOf_lt_of_mem he
    simp at h2 ⊢
    omega

/-- The `renderJson` from the source: the structured document with stable field
order (`generated_at` passed as the explicit `now` argument; the root path
string is taken as already absolute). -/
def renderJson (result : ScanResult) (opts : ScanOptions) (now : String) : String :=
  jsonRender 0 (.obj [
    ("generated_at", .str now),
    ("root", .str opts.rootPath),
    ("max_depth", .num opts.maxDepth),
    ("min_files", .num opts.minFiles),
    ("folders", .arr (result.folders.map (fun f => .obj [
      ("folder", .str (folderLabel f)),
      ("absolute_path", .str (pathToString f.absolutePath)),
      ("depth", .num f.depth),
      ("file_count", .num (f.fileCount : Int)),
      ("comment", .str (f.comment.getD ""))]))),
    ("warnings", .arr (result.warnings.map (fun w => .str w)))])

/-- The `RunOptions` from `types.ts` (`ScanOptions` plus formats and output base
path; the formats arrive as strings over the IPC boundary). -/
structure RunOptions where
  rootPath : String
  maxDepth : Int
  minFiles : Int
  comments : List (CommentKey × String)
  formats : List String
  outputBasePath : String

def RunOptions.toScanOptions (o : RunOptions) : ScanOptions :=
  { rootPath := o.rootPath, maxDepth := o.maxDepth, minFiles := o.minFiles,
    comments := o.comments }

/-- The `WrittenFiles` from `types.ts`. -/
structure WrittenFiles where
  json : Option String
  html : Option String
  csv : Option String
deriving DecidableEq

/-- The `RunResponse` from `types.ts`. -/
structure RunResponse where
  result : ScanResult
  writtenFiles : WrittenFiles
deriving DecidableEq

/-- The `path.parse(base).name`: the base name with its final extension stripped
(a leading dot, as in `.bashrc`, and the special name `..` keep no
extension, as in Node's parser). -/
def stripExt (base : String) : String :=
  if base = ".." then base
  else
    match (base.data.reverse).dropWhile (fun c => ¬ c = '.') with
    | [] => base
    | _ :: [] => base
    | _ :: pre => String.mk pre.reverse

/-- The `basePathWithoutExtension`: `path.join(parsed.dir, parsed.name)` on the
`/`-separated path string. -/
def basePathWithoutExtension (filePath : String) : String :=
  let segs := splitSegsGo [] filePath.data
  let base := (segs.getLast?).getD ""
  let dirSegs := segs.dropLast
  let name := stripExt base
  match dirSegs with
  | [] => name
  | _ =>
      let dir := String.intercalate "/" dirSegs
      if dir = "" then "/" ++ name else dir ++ "/" ++ name

/-- The payload selection of `runAndWrite`'s `for...switch` loop: one
`(format, data)` pair per recognised format, in order; every other format
string falls to `default` and is skipped. -/
def payloadsOf (result : ScanResult) (opts : RunOptions) (now : String) :
    List (String × String) :=
  opts.formats.foldl (fun acc format =>
    if format = "json" then acc ++ [("json", renderJson result opts.toScanOptions now)]
    else if format = "html" then acc ++ [("html", renderHtml result opts.toScanOptions now)]
    else if format = "csv" then acc ++ [("csv", renderCsv result)]
    else acc) []

/-- One iteration of the write loop: record `outputs[format] = targetPath`
(the file write itself is an external effect, modelled as succeeding). -/
def writeStep (baseFile : String) (o : WrittenFiles) (p : String × String) :
    WrittenFiles :=
  let targetPath := baseFile ++ "." ++ p.1
  if p.1 = "json" then { o with json := some targetPath }
  else if p.1 = "html" then { o with html := some targetPath }
  else if p.1 = "csv" then { o with csv := some targetPath }
  else o

/-- The `runAndWrite` from the source: scan, render each requested format, write
each payload next to `outputBasePath` with its extension, and return the
result with the map of written paths. -/
def runAndWrite (fs : FS) (now : String) (opts : RunOptions) :
    Except String RunResponse :=
  match scanDirectory fs opts.toScanOptions with
  | .error e => .error e
  | .ok result =>
      let baseFile := basePathWithoutExtension opts.outputBasePath
      let payloads := payloadsOf result opts now
      let outputs := payloads.foldl (writeStep baseFile)
        { json := none, html := none, csv := none }
      .ok { result := result, writtenFiles := outputs }

/-- The per-format payload selector underlying the `switch`. -/
def payloadFor (result : ScanResult) (opts : RunOptions) (now : String)
    (format : String) : Option (String × String) :=
  if format = "json" then some ("json", renderJson result opts.toScanOptions now)
  else if format = "html" then some ("html", renderHtml result opts.toScanOptions now)
  else if format = "csv" then some ("csv", renderCsv result)
  else none

/-- The worked example's run options: one unrecognised format (`docx`)
between two recognised ones, and an output base path with an extension. -/
def exRun : RunOptions :=
  { rootPath := "/share", maxDepth := 2, minFiles := 2,
    comments := [(.rel ["docs"], "Documents")],
    formats := ["json", "csv", "docx"], outputBasePath := "/out/report.txt" }

theorem sizeBound_of_depth (fs : FS) (maxDepth : Int) (p : FsPath) (depth : Int)
    (h : maxDepth < depth) : sizeBound fs maxDepth p depth = 1 := by
  rw [sizeBound]
  simp [h]

theorem sizeBound_of_error (fs : FS) (maxDepth : Int) (p : FsPath) (depth : Int)
    (h : ¬ maxDepth < depth) (he : fs.listing p = .error e) :
    sizeBound fs maxDepth p depth = 1 := by
  rw [sizeBound]
  simp [h, he]

theorem sizeBound_of_ok (fs : FS) (maxDepth : Int) (p : FsPath) (depth : Int)
    (h : ¬ maxDepth < depth) (he : fs.listing p = .ok entries) :
    sizeBound fs maxDepth p depth =
      1 + ((childDirs p entries).map (fun c => sizeBound fs maxDepth c (depth + 1))).sum := by
  rw [sizeBound]
  simp [h, he]

theorem sizeBound_pos (fs : FS) (maxDepth : Int) (p : FsPath) (depth : Int) :
    1 ≤ sizeBound fs maxDepth p depth := by
  by_cases h : maxDepth < depth
  · simp [sizeBound_of_depth fs maxDepth p depth h]
  · cases he : fs.listing p with
    | error e => simp [sizeBound_of_error fs maxDepth p depth h he]
    | ok entries => simp [sizeBound_of_ok fs maxDepth p depth h he]

theorem visit_of_depth (fs : FS) (maxDepth minFiles : Int) (root : FsPath)
    (cm : List (FsPath × String)) (p : FsPath) (depth : Int) (h : maxDepth < depth) :
    visit fs maxDepth minFiles root cm p depth = ([], []) := by
  rw [visit]
  simp [h]

theorem visit_of_error (fs : FS) (maxDepth minFiles : Int) (root : FsPath)
    (cm : List (FsPath × String)) (p : FsPath) (depth : Int) (e : String)
    (h : ¬ maxDepth < depth) (hl : fs.listing p = .error e) :
    visit fs maxDepth minFiles root cm p depth = ([], [skipMsg p e]) := by
  rw [visit]
  simp [h, hl]

theorem visit_of_ok (fs : FS) (maxDepth minFiles : Int) (root : FsPath)
    (cm : List (FsPath × String)) (p : FsPath) (depth : Int) (entries : List Dirent)
    (h : ¬ maxDepth < depth) (hl : fs.listing p = .ok entries) :
    visit fs maxDepth minFiles root cm p depth =
      ((if depth = 0 ∨ minFiles ≤ (countFiles entries : Int) then
          [scanRecord root cm p depth (countFiles entries)]
        else []) ++
        (((childDirs p entries).map
          (fun c => visit fs maxDepth minFiles root cm c (depth + 1))).map Prod.fst).flatten,
       (((childDirs p entries).map
          (fun c => visit fs maxDepth minFiles root cm c (depth + 1))).map Prod.snd).flatten) := by
  rw [visit]
  simp [h, hl]

theorem scanLoop_nil (fs : FS) (maxDepth minFiles : Int) (root : FsPath)
    (cm : List (FsPath × String)) (folders : List FolderInfo) (warnings : List String) :
    scanLoop fs maxDepth minFiles root cm [] folders warnings = (folders, warnings) := by
  rw [scanLoop]

theorem scanLoop_of_depth (fs : FS) (maxDepth minFiles : Int) (root : FsPath)
    (cm : List (FsPath × String)) (fr : ScanFrame) (stack : List ScanFrame)
    (folders : List FolderInfo) (warnings : List String) (h : maxDepth < fr.depth) :
    scanLoop fs maxDepth minFiles root cm (fr :: stack) folders warnings =
      scanLoop fs maxDepth minFiles root cm stack folders warnings := by
  rw [scanLoop, dif_pos h]

theorem scanLoop_of_error (fs : FS) (maxDepth minFiles : Int) (root : FsPath)
    (cm : List (FsPath × String)) (fr : ScanFrame) (stack : List ScanFrame)
    (folders : List FolderInfo) (warnings : List String) (e : String)
    (h : ¬ maxDepth < fr.depth) (hl : fs.listing fr.dirPath = .error e) :
    scanLoop fs maxDepth minFiles root cm (fr :: stack) folders warnings =
      scanLoop fs maxDepth minFiles root cm stack folders
        (warnings ++ [skipMsg fr.dirPath e]) := by
  rw [scanLoop, dif_neg h]
  split
  · rename_i e' heq
    rw [hl] at heq
    injection heq with h2
    subst h2
    rfl
  · rename_i entries' heq
    rw [hl] at heq
    simp at heq

theorem scanLoop_of_ok (fs : FS) (maxDepth minFiles : Int) (root : FsPath)
    (cm : List (FsPath × String)) (fr : ScanFrame) (stack : List ScanFrame)
    (folders : List FolderInfo) (warnings : List String) (entries : List Dirent)
    (h : ¬ maxDepth < fr.depth) (hl : fs.listing fr.dirPath = .ok entries) :
    scanLoop fs maxDepth minFiles root cm (fr :: stack) folders warnings =
      scanLoop fs maxDepth minFiles root cm
        ((childDirs fr.dirPath entries).map (fun c => ⟨c, fr.depth + 1⟩) ++ stack)
        (if fr.depth = 0 ∨ minFiles ≤ (countFiles entries : Int) then
          folders ++ [scanRecord root cm fr.dirPath fr.depth (countFiles entries)]
         else folders)
        warnings := by
  rw [scanLoop, dif_neg h]
  split
  · rename_i e' heq
    rw [hl] at heq
    simp at heq
  · rename_i entries' heq
    rw [hl] at heq
    injection heq with h2
    subst h2
    rfl

/-- The stack loop is the accumulator-passing form of `visit`: running the loop
on any stack appends, to the accumulators, the concatenated contributions of
the stacked frames in order. -/
theorem scanLoop_eq_visit (fs : FS) (maxDepth minFiles : Int) (root : FsPath)
    (cm : List (FsPath × String)) :
    ∀ (stack : List ScanFrame) (folders : List FolderInfo) (warnings : List String),
      scanLoop fs maxDepth minFiles root cm stack folders warnings =
        (folders ++ (stack.map
            (fun fr => (visit fs maxDepth minFiles root cm fr.dirPath fr.depth).1)).flatten,
         warnings ++ (stack.map
            (fun fr => (visit fs maxDepth minFiles root cm fr.dirPath fr.depth).2)).flatten) := by
  intro stack folders warnings
  induction stack, folders, warnings using scanLoop.induct fs maxDepth minFiles root cm with
  | case1 folders warnings =>
      simp [scanLoop_nil]
  | case2 fr stack folders warnings hd ih =>
      rw [scanLoop_of_depth fs maxDepth minFiles root cm fr stack folders warnings hd, ih]
      simp [visit_of_depth fs maxDepth minFiles root cm fr.dirPath fr.depth hd]
  | case3 fr stack folders warnings hd e hl ih =>
      rw [scanLoop_of_error fs maxDepth minFiles root cm fr stack folders warnings e hd hl, ih]
      simp [visit_of_error fs maxDepth minFiles root cm fr.dirPath fr.depth e hd hl]
  | case4 fr stack folders warnings hd entries hl fc fol ih =>
      rw [scanLoop_of_ok fs maxDepth minFiles root cm fr stack folders warnings entries hd hl]
      simp only [fc, fol, dite_eq_ite] at ih
      rw [ih]
      simp only [List.map_cons, List.flatten_cons]
      rw [visit_of_ok fs maxDepth minFiles root cm fr.dirPath fr.depth entries hd hl]
      simp only [List.map_append, List.map_map, Function.comp_def,
        List.flatten_append, Prod.mk.injEq]
      constructor
      · split <;> simp
      · simp

theorem errList_of_depth (fs : FS) (maxDepth : Int) (p : FsPath) (depth : Int)
    (h : maxDepth < depth) : errList fs maxDepth p depth = [] := by
  rw [errList]
  simp [h]

theorem errList_of_error (fs : FS) (maxDepth : Int) (p : FsPath) (depth : Int) (e : String)
    (h : ¬ maxDepth < depth) (hl : fs.listing p = .error e) :
    errList fs maxDepth p depth = [(p, e)] := by
  rw [errList]
  simp [h, hl]

theorem errList_of_ok (fs : FS) (maxDepth : Int) (p : FsPath) (depth : Int)
    (entries : List Dirent) (h : ¬ maxDepth < depth) (hl : fs.listing p = .ok entries) :
    errList fs maxDepth p depth =
      ((childDirs p entries).map (fun c => errList fs maxDepth c (depth + 1))).flatten := by
  rw [errList]
  simp [h, hl]

theorem visitedPaths_of_depth (fs : FS) (maxDepth : Int) (p : FsPath) (depth : Int)
    (h : maxDepth < depth) : visitedPaths fs maxDepth p depth = [] := by
  rw [visitedPaths]
  simp [h]

theorem visitedPaths_of_error (fs : FS) (maxDepth : Int) (p : FsPath) (depth : Int)
    (e : String) (h : ¬ maxDepth < depth) (hl : fs.listing p = .error e) :
    visitedPaths fs maxDepth p depth = [p] := by
  rw [visitedPaths]
  simp [h, hl]

theorem visitedPaths_of_ok (fs : FS) (maxDepth : Int) (p : FsPath) (depth : Int)
    (entries : List Dirent) (h : ¬ maxDepth < depth) (hl : fs.listing p = .ok entries) :
    visitedPaths fs maxDepth p depth =
      p :: ((childDirs p entries).map (fun c => visitedPaths fs maxDepth c (depth + 1))).flatten := by
  rw [visitedPaths]
  simp [h, hl]

/-- Membership in `childDirs`: each child is the parent plus one segment, named
by a directory entry that is a directory and not a symbolic link. -/
theorem mem_childDirs {p : FsPath} {entries : List Dirent} {c : FsPath}
    (hc : c ∈ childDirs p entries) :
    ∃ ent ∈ entries, ent.isDirectory = true ∧ ent.isSymbolicLink = false ∧
      c = p ++ [ent.name] := by
  rw [childDirs, List.mem_mergeSort, List.mem_map] at hc
  obtain ⟨ent, hent, hceq⟩ := hc
  rw [List.mem_filter] at hent
  refine ⟨ent, hent.1, ?_, ?_, hceq.symm⟩
  · have := hent.2
    rw [keepDirEntry] at this
    exact (Bool.and_eq_true _ _).mp this |>.1
  · have := hent.2
    rw [keepDirEntry] at this
    have h2 := (Bool.and_eq_true _ _).mp this |>.2
    simpa using h2

/-- Structure of every folder record produced by a subtree visit: its absolute
path extends the visited directory, its recorded depth is within bounds, it
passed the file-count filter (or is at depth 0), and it is the record of a
successfully listed directory. -/
theorem mem_visit_folders (fs : FS) (maxDepth minFiles : Int) (root : FsPath)
    (cm : List (FsPath × String)) :
    ∀ (p : FsPath) (depth : Int) (f : FolderInfo),
      f ∈ (visit fs maxDepth minFiles root cm p depth).1 →
        p <+: f.absolutePath ∧ ¬ maxDepth < f.depth ∧ depth ≤ f.depth ∧
        (f.depth = 0 ∨ minFiles ≤ (f.fileCount : Int)) ∧
        ∃ entries, fs.listing f.absolutePath = .ok entries ∧
          f = scanRecord root cm f.absolutePath f.depth (countFiles entries) := by
  intro p depth
  induction p, depth using visit.induct fs maxDepth minFiles root cm with
  | case1 p depth h =>
      intro f hf
      rw [visit_of_depth fs maxDepth minFiles root cm p depth h] at hf
      simp at hf
  | case2 p depth h e hl =>
      intro f hf
      rw [visit_of_error fs maxDepth minFiles root cm p depth e h hl] at hf
      simp at hf
  | case3 p depth h entries hl ih =>
      intro f hf
      rw [visit_of_ok fs maxDepth minFiles root cm p depth entries h hl] at hf
      rw [List.mem_append] at hf
      cases hf with
      | inl hf =>
          have hcond : depth = 0 ∨ minFiles ≤ (countFiles entries : Int) := by
            by_contra hc
            rw [if_neg hc] at hf
            simp at hf
          rw [if_pos hcond] at hf
          simp at hf
          subst hf
          refine ⟨List.prefix_refl _, h, le_refl _, hcond, entries, hl, rfl⟩
      | inr hf =>
          rw [List.mem_flatten] at hf
          obtain ⟨l, hl2, hfl⟩ := hf
          rw [List.mem_map] at hl2
          obtain ⟨pr, hpr, hpreq⟩ := hl2
          rw [List.mem_map] at hpr
          obtain ⟨c, hc, hceq⟩ := hpr
          subst hceq
          subst hpreq
          have hrec := ih c f hfl
          obtain ⟨hpre, hdep, hdge, hcond, hrest⟩ := hrec
          obtain ⟨ent, _, _, _, hceq2⟩ := mem_childDirs hc
          refine ⟨?_, hdep, by omega, hcond, hrest⟩
          exact List.IsPrefix.trans (hceq2 ▸ List.prefix_append p [ent.name]) hpre

/-- A child's visit contributes subsets of the parent's visit (folders). -/
theorem visit_child_sub_folders (fs : FS) (maxDepth minFiles : Int) (root : FsPath)
    (cm : List (FsPath × String)) {p c : FsPath} {d : Int} {entries : List Dirent}
    (h : ¬ maxDepth < d) (hl : fs.listing p = .ok entries) (hc : c ∈ childDirs p entries) :
    (visit fs maxDepth minFiles root cm c (d + 1)).1 ⊆
      (visit fs maxDepth minFiles root cm p d).1 := by
  rw [visit_of_ok fs maxDepth minFiles root cm p d entries h hl]
  intro x hx
  rw [List.mem_append, List.mem_flatten]
  refine Or.inr ⟨(visit fs maxDepth minFiles root cm c (d + 1)).1, ?_, hx⟩
  rw [List.map_map]
  exact List.mem_map.mpr ⟨c, hc, rfl⟩

/-- A child's visit contributes subsets of the parent's visit (warnings). -/
theorem visit_child_sub_warnings (fs : FS) (maxDepth minFiles : Int) (root : FsPath)
    (cm : List (FsPath × String)) {p c : FsPath} {d : Int} {entries : List Dirent}
    (h : ¬ maxDepth < d) (hl : fs.listing p = .ok entries) (hc : c ∈ childDirs p entries) :
    (visit fs maxDepth minFiles root cm c (d + 1)).2 ⊆
      (visit fs maxDepth minFiles root cm p d).2 := by
  rw [visit_of_ok fs maxDepth minFiles root cm p d entries h hl]
  intro x hx
  rw [List.mem_flatten]
  refine ⟨(visit fs maxDepth minFiles root cm c (d + 1)).2, ?_, hx⟩
  rw [List.map_map]
  exact List.mem_map.mpr ⟨c, hc, rfl⟩

/-- A child's error list is a subset of the parent's. -/
theorem errList_child_sub (fs : FS) (maxDepth : Int) {p c : FsPath} {d : Int}
    {entries : List Dirent}
    (h : ¬ maxDepth < d) (hl : fs.listing p = .ok entries) (hc : c ∈ childDirs p entries) :
    errList fs maxDepth c (d + 1) ⊆ errList fs maxDepth p d := by
  rw [errList_of_ok fs maxDepth p d entries h hl]
  intro x hx
  rw [List.mem_flatten]
  exact ⟨errList fs maxDepth c (d + 1), List.mem_map.mpr ⟨c, hc, rfl⟩, hx⟩

/-- Everything contributed by a reached frame's visit is contributed by the
scan from the root. -/
theorem reaches_sub (fs : FS) (maxDepth minFiles : Int) (root : FsPath)
    (cm : List (FsPath × String)) {p : FsPath} {d : Int}
    (hr : Reaches fs maxDepth root p d) :
    (visit fs maxDepth minFiles root cm p d).1 ⊆
      (visit fs maxDepth minFiles root cm root 0).1 ∧
    (visit fs maxDepth minFiles root cm p d).2 ⊆
      (visit fs maxDepth minFiles root cm root 0).2 ∧
    errList fs maxDepth p d ⊆ errList fs maxDepth root 0 := by
  induction hr with
  | base => exact ⟨fun _ h => h, fun _ h => h, fun _ h => h⟩
  | step hr hd hl hc ih =>
      refine ⟨?_, ?_, ?_⟩
      · exact fun x hx => ih.1 (visit_child_sub_folders fs maxDepth minFiles root cm hd hl hc hx)
      · exact fun x hx => ih.2.1 (visit_child_sub_warnings fs maxDepth minFiles root cm hd hl hc hx)
      · exact fun x hx => ih.2.2 (errList_child_sub fs maxDepth hd hl hc hx)

/-- A reached, listable, qualifying directory is recorded by the scan. -/
theorem visit_records_reached (fs : FS) (maxDepth minFiles : Int) (root : FsPath)
    (cm : List (FsPath × String)) {p : FsPath} {d : Int} {entries : List Dirent}
    (hr : Reaches fs maxDepth root p d) (hd : ¬ maxDepth < d)
    (hl : fs.listing p = .ok entries)
    (hq : d = 0 ∨ minFiles ≤ (countFiles entries : Int)) :
    scanRecord root cm p d (countFiles entries) ∈
      (visit fs maxDepth minFiles root cm root 0).1 := by
  have hmem : scanRecord root cm p d (countFiles entries) ∈
      (visit fs maxDepth minFiles root cm p d).1 := by
    rw [visit_of_ok fs maxDepth minFiles root cm p d entries hd hl, if_pos hq]
    simp
  exact (reaches_sub fs maxDepth minFiles root cm hr).1 hmem

/-- A reached directory whose listing fails contributes its warning pair. -/
theorem errList_mem_reached (fs : FS) (maxDepth : Int) (root : FsPath)
    {p : FsPath} {d : Int} {e : String} (minFiles : Int) (cm : List (FsPath × String))
    (hr : Reaches fs maxDepth root p d) (hd : ¬ maxDepth < d)
    (hl : fs.listing p = .error e) :
    (p, e) ∈ errList fs maxDepth root 0 := by
  have hmem : (p, e) ∈ errList fs maxDepth p d := by
    rw [errList_of_error fs maxDepth p d e hd hl]
    simp
  exact (reaches_sub fs maxDepth minFiles root cm hr).2.2 hmem

/-- The warnings produced by a visit are exactly the rendered error list. -/
theorem visit_warnings_eq_errList (fs : FS) (maxDepth minFiles : Int) (root : FsPath)
    (cm : List (FsPath × String)) :
    ∀ (p : FsPath) (depth : Int),
      (visit fs maxDepth minFiles root cm p depth).2 =
        (errList fs maxDepth p depth).map (fun pe => skipMsg pe.1 pe.2) := by
  intro p depth
  induction p, depth using visit.induct fs maxDepth minFiles root cm with
  | case1 p depth h =>
      rw [visit_of_depth fs maxDepth minFiles root cm p depth h,
        errList_of_depth fs maxDepth p depth h]
      simp
  | case2 p depth h e hl =>
      rw [visit_of_error fs maxDepth minFiles root cm p depth e h hl,
        errList_of_error fs maxDepth p depth e h hl]
      simp
  | case3 p depth h entries hl ih =>
      rw [visit_of_ok fs maxDepth minFiles root cm p depth entries h hl,
        errList_of_ok fs maxDepth p depth entries h hl]
      simp only [List.map_flatten, List.map_map, Function.comp_def]
      congr 1
      apply List.map_congr_left
      intro c hc
      exact ih c

/-- Every error-list entry is a failed listing in the visited subtree. -/
theorem mem_errList (fs : FS) (maxDepth : Int) :
    ∀ (p : FsPath) (depth : Int) (x : FsPath × String),
      x ∈ errList fs maxDepth p depth →
        p <+: x.1 ∧ fs.listing x.1 = .error x.2 := by
  intro p depth
  induction p, depth using errList.induct fs maxDepth with
  | case1 p depth h =>
      intro x hx
      rw [errList_of_depth fs maxDepth p depth h] at hx
      simp at hx
  | case2 p depth h e hl =>
      intro x hx
      rw [errList_of_error fs maxDepth p depth e h hl] at hx
      simp at hx
      subst hx
      exact ⟨List.prefix_refl _, hl⟩
  | case3 p depth h entries hl ih =>
      intro x hx
      rw [errList_of_ok fs maxDepth p depth entries h hl] at hx
      rw [List.mem_flatten] at hx
      obtain ⟨l, hml, hxl⟩ := hx
      rw [List.mem_map] at hml
      obtain ⟨c, hc, hceq⟩ := hml
      subst hceq
      have := ih c x hxl
      obtain ⟨ent, _, _, _, hceq2⟩ := mem_childDirs hc
      exact ⟨ List.IsPrefix.trans (hceq2 ▸ List.prefix_append p [ent.name]) this.1, this.2⟩

/-- Sum of a list of at-most-one values with at most one nonzero summand. -/
theorem map_sum_le_one {α : Type} (l : List α) (f : α → Nat)
    (hb : ∀ a ∈ l, f a ≤ 1)
    (hu : ∀ a ∈ l, ∀ b ∈ l, f a ≠ 0 → f b ≠ 0 → a = b)
    (hn : l.Nodup) : (l.map f).sum ≤ 1 := by
  induction l with
  | nil => simp
  | cons a l ih =>
      rw [List.map_cons, List.sum_cons]
      by_cases ha : f a = 0
      · rw [ha]
        have := ih (fun b hb2 => hb b (List.mem_cons_of_mem a hb2))
          (fun b hb2 c hc2 => hu b (List.mem_cons_of_mem a hb2) c (List.mem_cons_of_mem a hc2))
          (List.Nodup.of_cons hn)
        omega
      · have hz : (l.map f).sum = 0 := by
          apply List.sum_eq_zero
          intro x hx
          rw [List.mem_map] at hx
          obtain ⟨b, hbl, hbeq⟩ := hx
          by_contra hxne
          have hfb : f b ≠ 0 := by omega
          have heq := hu a (List.mem_cons_self a l) b (List.mem_cons_of_mem a hbl) ha hfb
          exact (List.nodup_cons.mp hn).1 (heq ▸ hbl)
        have := hb a (List.mem_cons_self a l)
        omega

theorem childDirs_nodup {fs : FS} (hn : NodupListings fs) {p : FsPath}
    {es : List Dirent} (hl : fs.listing p = .ok es) : (childDirs p es).Nodup := by
  rw [childDirs]
  rw [(List.mergeSort_perm _ pathLe).nodup_iff]
  have h1 := hn p es hl
  have h2 : (es.filter keepDirEntry).map (fun ent => p ++ [ent.name]) =
      ((es.filter keepDirEntry).map (fun ent => ent.name)).map (fun n => p ++ [n]) := by
    rw [List.map_map]
    rfl
  rw [h2]
  apply List.Nodup.map _ h1
  intro a b hab
  simpa using List.append_cancel_left hab

theorem mem_childDirs_length {p : FsPath} {entries : List Dirent} {c : FsPath}
    (hc : c ∈ childDirs p entries) : c.length = p.length + 1 := by
  obtain ⟨ent, _, _, _, hceq⟩ := mem_childDirs hc
  subst hceq
  simp

/-- Each path occurs at most once in the error list (listings do not repeat
names, so no directory is pushed twice). -/
theorem errList_countP_le_one (fs : FS) (maxDepth : Int) (hn : NodupListings fs)
    (q : FsPath) :
    ∀ (p : FsPath) (depth : Int),
      (errList fs maxDepth p depth).countP (fun x => decide (x.1 = q)) ≤ 1 := by
  intro p depth
  induction p, depth using errList.induct fs maxDepth with
  | case1 p depth h =>
      rw [errList_of_depth fs maxDepth p depth h]
      simp
  | case2 p depth h e hl =>
      rw [errList_of_error fs maxDepth p depth e h hl]
      exact List.countP_le_length _
  | case3 p depth h entries hl ih =>
      rw [errList_of_ok fs maxDepth p depth entries h hl]
      rw [List.countP_flatten, List.map_map, Function.comp_def]
      apply map_sum_le_one
      · intro c hc
        exact ih c
      · intro c1 hc1 c2 hc2 hnz1 hnz2
        have hm1 : ∃ x ∈ errList fs maxDepth c1 (depth + 1), x.1 = q := by
          have := Nat.pos_of_ne_zero hnz1
          rw [List.countP_pos_iff] at this
          obtain ⟨x, hx, hxq⟩ := this
          exact ⟨x, hx, by simpa using hxq⟩
        have hm2 : ∃ x ∈ errList fs maxDepth c2 (depth + 1), x.1 = q := by
          have := Nat.pos_of_ne_zero hnz2
          rw [List.countP_pos_iff] at this
          obtain ⟨x, hx, hxq⟩ := this
          exact ⟨x, hx, by simpa using hxq⟩
        obtain ⟨x1, hx1, hq1⟩ := hm1
        obtain ⟨x2, hx2, hq2⟩ := hm2
        have hp1 : c1 <+: q := hq1 ▸ (mem_errList fs maxDepth c1 (depth + 1) x1 hx1).1
        have hp2 : c2 <+: q := hq2 ▸ (mem_errList fs maxDepth c2 (depth + 1) x2 hx2).1
        have hl1 := mem_childDirs_length hc1
        have hl2 := mem_childDirs_length hc2
        exact List.IsPrefix.eq_of_length
          (List.prefix_of_prefix_length_le hp1 hp2 (by omega)) (by omega)
      · exact childDirs_nodup hn hl

/-- No folder record lies in the subtree of a directory whose listing fails
(including that directory itself). -/
theorem no_folder_in_error_subtree (fs : FS) (maxDepth minFiles : Int) (root : FsPath)
    (cm : List (FsPath × String)) {p : FsPath} {e : String}
    (hp : fs.listing p = .error e) :
    ∀ (q : FsPath) (depth : Int), (q = p ∨ ¬ p <+: q) →
      ∀ f ∈ (visit fs maxDepth minFiles root cm q depth).1, ¬ p <+: f.absolutePath := by
  intro q depth
  induction q, depth using visit.induct fs maxDepth minFiles root cm with
  | case1 q depth h =>
      intro _ f hf
      rw [visit_of_depth fs maxDepth minFiles root cm q depth h] at hf
      simp at hf
  | case2 q depth h e2 hl =>
      intro _ f hf
      rw [visit_of_error fs maxDepth minFiles root cm q depth e2 h hl] at hf
      simp at hf
  | case3 q depth h entries hl ih =>
      intro hq f hf
      cases hq with
      | inl hq =>
          subst hq
          rw [hp] at hl
          simp at hl
      | inr hq =>
          rw [visit_of_ok fs maxDepth minFiles root cm q depth entries h hl] at hf
          rw [List.mem_append] at hf
          cases hf with
          | inl hf =>
              have habs : f.absolutePath = q := by
                by_cases hcond : depth = 0 ∨ minFiles ≤ (countFiles entries : Int)
                · rw [if_pos hcond] at hf
                  simp at hf
                  subst hf
                  rfl
                · rw [if_neg hcond] at hf
                  simp at hf
              rw [habs]
              exact hq
          | inr hf =>
              rw [List.mem_flatten] at hf
              obtain ⟨l, hml, hfl⟩ := hf
              rw [List.mem_map] at hml
              obtain ⟨pr, hpr, hpreq⟩ := hml
              rw [List.mem_map] at hpr
              obtain ⟨c, hc, hceq⟩ := hpr
              subst hceq
              subst hpreq
              apply ih c ?_ f hfl
              obtain ⟨ent, _, _, _, hceq2⟩ := mem_childDirs hc
              by_cases hpc : p <+: c
              · left
                subst hceq2
                rcases List.prefix_concat_iff.mp hpc with heq | hpq
                · exact heq.symm
                · exact absurd hpq hq
              · right
                exact hpc

/-- Every visited path extends the subtree root, keeps within the depth
budget, and — unless it is the subtree root itself — was reached through a
directory entry that is a directory and not a symbolic link. -/
theorem mem_visitedPaths (fs : FS) (maxDepth : Int) :
    ∀ (p : FsPath) (depth : Int) (q : FsPath), q ∈ visitedPaths fs maxDepth p depth →
      p <+: q ∧ (q.length : Int) ≤ p.length + (maxDepth - depth) ∧
      (q = p ∨ ∃ parent es ent, fs.listing parent = .ok es ∧ ent ∈ es ∧
        ent.isDirectory = true ∧ ent.isSymbolicLink = false ∧ q = parent ++ [ent.name]) := by
  intro p depth
  induction p, depth using visitedPaths.induct fs maxDepth with
  | case1 p depth h =>
      intro q hq
      rw [visitedPaths_of_depth fs maxDepth p depth h] at hq
      simp at hq
  | case2 p depth h e hl =>
      intro q hq
      rw [visitedPaths_of_error fs maxDepth p depth e h hl] at hq
      simp at hq
      subst hq
      exact ⟨List.prefix_refl _, by omega, Or.inl rfl⟩
  | case3 p depth h entries hl ih =>
      intro q hq
      rw [visitedPaths_of_ok fs maxDepth p depth entries h hl] at hq
      rw [List.mem_cons] at hq
      cases hq with
      | inl hq =>
          subst hq
          exact ⟨List.prefix_refl _, by omega, Or.inl rfl⟩
      | inr hq =>
          rw [List.mem_flatten] at hq
          obtain ⟨l, hml, hql⟩ := hq
          rw [List.mem_map] at hml
          obtain ⟨c, hc, hceq⟩ := hml
          subst hceq
          obtain ⟨hpre, hlen, hvia⟩ := ih c q hql
          obtain ⟨ent, hent, hdir, hsym, hceq2⟩ := mem_childDirs hc
          have hclen : c.length = p.length + 1 := by
            subst hceq2
            simp
          refine ⟨?_, by omega, ?_⟩
          · exact List.IsPrefix.trans (hceq2 ▸ List.prefix_append p [ent.name]) hpre
          · cases hvia with
            | inl hq2 =>
                subst hq2
                exact Or.inr ⟨p, entries, ent, hl, hent, hdir, hsym, hceq2⟩
            | inr hvia => exact Or.inr hvia

/-- Every recorded folder's path was actually visited. -/
theorem visit_folders_sub_visited (fs : FS) (maxDepth minFiles : Int) (root : FsPath)
    (cm : List (FsPath × String)) :
    ∀ (p : FsPath) (depth : Int) (f : FolderInfo),
      f ∈ (visit fs maxDepth minFiles root cm p depth).1 →
        f.absolutePath ∈ visitedPaths fs maxDepth p depth := by
  intro p depth
  induction p, depth using visit.induct fs maxDepth minFiles root cm with
  | case1 p depth h =>
      intro f hf
      rw [visit_of_depth fs maxDepth minFiles root cm p depth h] at hf
      simp at hf
  | case2 p depth h e hl =>
      intro f hf
      rw [visit_of_error fs maxDepth minFiles root cm p depth e h hl] at hf
      simp at hf
  | case3 p depth h entries hl ih =>
      intro f hf
      rw [visit_of_ok fs maxDepth minFiles root cm p depth entries h hl] at hf
      rw [visitedPaths_of_ok fs maxDepth p depth entries h hl]
      rw [List.mem_append] at hf
      cases hf with
      | inl hf =>
          have habs : f.absolutePath = p := by
            by_cases hcond : depth = 0 ∨ minFiles ≤ (countFiles entries : Int)
            · rw [if_pos hcond] at hf
              simp at hf
              subst hf
              rfl
            · rw [if_neg hcond] at hf
              simp at hf
          rw [habs]
          exact List.mem_cons_self _ _
      | inr hf =>
          rw [List.mem_flatten] at hf
          obtain ⟨l, hml, hfl⟩ := hf
          rw [List.mem_map] at hml
          obtain ⟨pr, hpr, hpreq⟩ := hml
          rw [List.mem_map] at hpr
          obtain ⟨c, hc, hceq⟩ := hpr
          subst hceq
          subst hpreq
          apply List.mem_cons_of_mem
          rw [List.mem_flatten]
          exact ⟨visitedPaths fs maxDepth c (depth + 1),
            List.mem_map.mpr ⟨c, hc, rfl⟩, ih c f hfl⟩

/-- The relative path of the root record is `"."`. -/
theorem toRelativePath_self (p : FsPath) : toRelativePath p p = "." := by
  simp only [toRelativePath, List.drop_length]
  rfl

/-- The `scanDirectory` on validated options with a resolvable root: the sorted
folders and the warnings of the root visit. -/
theorem scanDirectory_eq_ok (fs : FS) (opts : ScanOptions) (root : FsPath)
    (h0 : ¬ opts.maxDepth < 0) (h1 : ¬ opts.minFiles < 0)
    (hr : fs.realpath opts.rootPath = .ok root) :
    scanDirectory fs opts = .ok
      { folders := ((visit fs opts.maxDepth opts.minFiles root
          (normaliseComments opts.comments root) root 0).1).mergeSort labelLe,
        warnings := (visit fs opts.maxDepth opts.minFiles root
          (normaliseComments opts.comments root) root 0).2 } := by
  rw [scanDirectory, if_neg h0, if_neg h1, hr]
  simp [scanLoop_eq_visit]

/-- The `scanDirectory` fails exactly on invalid options or an unresolvable root. -/
theorem scanDirectory_eq_error (fs : FS) (opts : ScanOptions) (e : String)
    (h0 : ¬ opts.maxDepth < 0) (h1 : ¬ opts.minFiles < 0)
    (hr : fs.realpath opts.rootPath = .error e) :
    scanDirectory fs opts = .error e := by
  rw [scanDirectory, if_neg h0, if_neg h1, hr]

/-- The `strLe` decides the `String` order. -/
theorem strLe_iff (a b : String) : strLe a b = true ↔ a ≤ b := by
  rw [strLe, decide_eq_true_eq]
  exact String.le_iff_toList_le.symm

/-- A reached frame lies under the root at a nonnegative depth. -/
theorem reaches_root_le {fs : FS} {maxDepth : Int} {root p : FsPath} {d : Int}
    (hr : Reaches fs maxDepth root p d) : root <+: p ∧ 0 ≤ d := by
  induction hr with
  | base => exact ⟨List.prefix_refl _, le_refl 0⟩
  | step hr hd hl hc ih =>
      obtain ⟨ent, _, _, _, hceq⟩ := mem_childDirs hc
      refine ⟨?_, by omega⟩
      exact List.IsPrefix.trans ih.1 (hceq ▸ List.prefix_append _ [ent.name])

/-- C1: for valid options, every returned folder respects the depth bound and
the file-count threshold (with the root exempt from the threshold).
Termination of the traversal holds by construction: the embedded loop is a
total function (well-founded on `stackMeasure`). -/
theorem c1_filter_invariant (fs : FS) (opts : ScanOptions)
    (hmd : 0 ≤ opts.maxDepth) (hmf : 0 ≤ opts.minFiles) (res : ScanResult)
    (hres : scanDirectory fs opts = .ok res) :
    ∀ f ∈ res.folders, f.depth ≤ opts.maxDepth ∧
      (f.depth = 0 ∨ opts.minFiles ≤ (f.fileCount : Int)) := by
  intro f hf
  have h0 : ¬ opts.maxDepth < 0 := by omega
  have h1 : ¬ opts.minFiles < 0 := by omega
  cases hr : fs.realpath opts.rootPath with
  | error e =>
      rw [scanDirectory_eq_error fs opts e h0 h1 hr] at hres
      cases hres
  | ok root =>
      rw [scanDirectory_eq_ok fs opts root h0 h1 hr] at hres
      injection hres with h2
      subst h2
      simp only [List.mem_mergeSort] at hf
      have := mem_visit_folders fs opts.maxDepth opts.minFiles root
        (normaliseComments opts.comments root) root 0 f hf
      exact ⟨by omega, this.2.2.2.1⟩

/-- C2 (amended): when additionally the root directory itself can be listed,
the root record (relative path `"."`, depth 0) is in the returned folders,
regardless of its file count. -/
theorem c2_root_present (fs : FS) (opts : ScanOptions) (root : FsPath)
    (entries : List Dirent)
    (hmd : 0 ≤ opts.maxDepth) (hmf : 0 ≤ opts.minFiles)
    (hr : fs.realpath opts.rootPath = .ok root)
    (hl : fs.listing root = .ok entries) (res : ScanResult)
    (hres : scanDirectory fs opts = .ok res) :
    ∃ f ∈ res.folders, f.absolutePath = root ∧ f.relativePath = "." ∧ f.depth = 0 := by
  have h0 : ¬ opts.maxDepth < 0 := by omega
  have h1 : ¬ opts.minFiles < 0 := by omega
  rw [scanDirectory_eq_ok fs opts root h0 h1 hr] at hres
  injection hres with h2
  subst h2
  refine ⟨scanRecord root (normaliseComments opts.comments root) root 0 (countFiles entries),
    ?_, rfl, toRelativePath_self root, rfl⟩
  simp only [List.mem_mergeSort]
  exact visit_records_reached fs opts.maxDepth opts.minFiles root
    (normaliseComments opts.comments root) Reaches.base (by omega) hl (Or.inl rfl)

unseal List.merge List.mergeSort in
/-- C2 (counterexample): a scan whose root path canonicalizes but whose root
directory cannot be listed returns an empty folder list — the root record is
absent, refuting the claim as stated. -/
theorem c2_counterexample :
    cexFS.realpath "/share" = .ok ["share"] ∧
    scanDirectory cexFS cexOpts =
      .ok { folders := [], warnings := ["Skipped /share: EACCES"] } ∧
    ¬ ∃ f, f ∈ ({ folders := [], warnings := ["Skipped /share: EACCES"] } :
        ScanResult).folders ∧ f.relativePath = "." ∧ f.depth = 0 := by
  refine ⟨by rfl, ?_, by simp⟩
  rw [scanDirectory_eq_ok cexFS cexOpts ["share"] (by decide) (by decide) (by rfl)]
  rw [visit_of_error cexFS cexOpts.maxDepth cexOpts.minFiles ["share"]
    (normaliseComments cexOpts.comments ["share"]) ["share"] 0 "EACCES" (by decide) (by rfl)]
  rfl

/-- C7: the returned folder sequence is sorted by relative label (under the
modelled `localeCompare`, code-point string comparison). -/
theorem c7_folders_sorted (fs : FS) (opts : ScanOptions) (res : ScanResult)
    (hres : scanDirectory fs opts = .ok res) :
    List.Sorted (fun a b => folderLabel a ≤ folderLabel b) res.folders := by
  by_cases h0 : opts.maxDepth < 0
  · rw [scanDirectory, if_pos h0] at hres
    cases hres
  by_cases h1 : opts.minFiles < 0
  · rw [scanDirectory, if_neg h0, if_pos h1] at hres
    cases hres
  cases hr : fs.realpath opts.rootPath with
  | error e =>
      rw [scanDirectory_eq_error fs opts e h0 h1 hr] at hres
      cases hres
  | ok root =>
      rw [scanDirectory_eq_ok fs opts root h0 h1 hr] at hres
      injection hres with h2
      subst h2
      have hs := @List.sorted_mergeSort _ labelLe
        (fun a b c h1 h2 => by
          rw [labelLe, strLe_iff] at *
          exact le_trans h1 h2)
        (fun a b => by
          rcases le_total (folderLabel a) (folderLabel b) with h | h <;>
            simp [labelLe, (strLe_iff _ _).mpr h])
        ((visit fs opts.maxDepth opts.minFiles root
          (normaliseComments opts.comments root) root 0).1)
      exact List.Pairwise.imp (fun h => by
        rwa [labelLe, strLe_iff] at h) hs

unseal List.merge List.mergeSort in
theorem exFS_visit_docs :
    visit exFS 2 2 ["share"] (normaliseComments exOpts.comments ["share"])
      ["share", "docs"] 1 = ([exDocsRec], []) := by
  rw [visit_of_ok exFS 2 2 ["share"] (normaliseComments exOpts.comments ["share"])
    ["share", "docs"] 1 exEntDocs (by decide) (by rfl)]
  have hchild : childDirs ["share", "docs"] exEntDocs = [] := by
    rw [childDirs]
    rfl
  rw [hchild]
  rfl

theorem exFS_visit_locked :
    visit exFS 2 2 ["share"] (normaliseComments exOpts.comments ["share"])
      ["share", "locked"] 1 = ([], ["Skipped /share/locked: EACCES"]) := by
  rw [visit_of_error exFS 2 2 ["share"] (normaliseComments exOpts.comments ["share"])
    ["share", "locked"] 1 "EACCES" (by decide) (by rfl)]
  rfl

unseal List.merge List.mergeSort in
theorem exFS_childDirs_root :
    childDirs ["share"] exEntRoot = [["share", "docs"], ["share", "locked"]] := by
  rw [childDirs]
  rfl

theorem exFS_visit_root :
    visit exFS 2 2 ["share"] (normaliseComments exOpts.comments ["share"]) ["share"] 0 =
      ([exRootRec, exDocsRec], ["Skipped /share/locked: EACCES"]) := by
  rw [visit_of_ok exFS 2 2 ["share"] (normaliseComments exOpts.comments ["share"])
    ["share"] 0 exEntRoot (by decide) (by rfl)]
  rw [exFS_childDirs_root]
  simp only [List.map_cons, List.map_nil, List.flatten_cons, List.flatten_nil,
    zero_add, exFS_visit_docs, exFS_visit_locked]
  rfl

unseal List.merge List.mergeSort in
theorem exFS_scan : scanDirectory exFS exOpts = .ok exRes := by
  rw [scanDirectory_eq_ok exFS exOpts ["share"] (by decide) (by decide) (by rfl)]
  have h1 : exOpts.maxDepth = 2 := rfl
  have h2 : exOpts.minFiles = 2 := rfl
  rw [h1, h2, exFS_visit_root]
  rfl

/-- C1 witness: the example scan satisfies the filter invariant. -/
theorem c1_filter_invariant_witness :
    (0 : Int) ≤ exOpts.maxDepth ∧ (0 : Int) ≤ exOpts.minFiles ∧
    ∀ f ∈ exRes.folders, f.depth ≤ exOpts.maxDepth ∧
      (f.depth = 0 ∨ exOpts.minFiles ≤ (f.fileCount : Int)) :=
  ⟨by decide, by decide,
    c1_filter_invariant exFS exOpts (by decide) (by decide) exRes exFS_scan⟩

/-- C2 witness: the example scan contains the root record. -/
theorem c2_root_present_witness :
    ∃ f ∈ exRes.folders, f.absolutePath = ["share"] ∧ f.relativePath = "." ∧
      f.depth = 0 :=
  c2_root_present exFS exOpts ["share"] exEntRoot (by decide) (by decide)
    (by rfl) (by rfl) exRes exFS_scan

/-- C7 witness: the example scan's folders are sorted by relative label. -/
theorem c7_folders_sorted_witness :
    List.Sorted (fun a b => folderLabel a ≤ folderLabel b) exRes.folders :=
  c7_folders_sorted exFS exOpts exRes exFS_scan

/-- C4: every returned folder's comment is exactly the normalised-map lookup
by its canonical absolute path: a root-relative key attaches to the folder
whose absolute path is the root joined with the key, and a folder matched by
no key gets the empty string (the field is always a present string, never
null/undefined). -/
theorem c4_comment_overlay (fs : FS) (opts : ScanOptions) (root : FsPath)
    (hmd : 0 ≤ opts.maxDepth) (hmf : 0 ≤ opts.minFiles)
    (hr : fs.realpath opts.rootPath = .ok root) (res : ScanResult)
    (hres : scanDirectory fs opts = .ok res) :
    ∀ f ∈ res.folders,
      f.comment = some ((lookupComment (normaliseComments opts.comments root)
        f.absolutePath).getD "") ∧
      ((∀ kv ∈ opts.comments, resolveKey root kv.1 ≠ f.absolutePath) →
        f.comment = some "") ∧
      (∀ (segs : List String) (v : String), opts.comments = [(CommentKey.rel segs, v)] →
        f.comment = some (if f.absolutePath = root ++ segs then v else "")) := by
  have h0 : ¬ opts.maxDepth < 0 := by omega
  have h1 : ¬ opts.minFiles < 0 := by omega
  rw [scanDirectory_eq_ok fs opts root h0 h1 hr] at hres
  injection hres with h2
  subst h2
  intro f hf
  simp only [List.mem_mergeSort] at hf
  have hrec := (mem_visit_folders fs opts.maxDepth opts.minFiles root
    (normaliseComments opts.comments root) root 0 f hf).2.2.2.2
  obtain ⟨entries, hlf, hfeq⟩ := hrec
  have hcomment : f.comment = some ((lookupComment (normaliseComments opts.comments root)
      f.absolutePath).getD "") := by
    conv_lhs => rw [hfeq]
    rfl
  refine ⟨hcomment, ?_, ?_⟩
  · intro hnone
    rw [hcomment]
    have hfilter : (normaliseComments opts.comments root).filter
        (fun kv => decide (kv.1 = f.absolutePath)) = [] := by
      rw [List.filter_eq_nil_iff]
      intro x hx
      rw [normaliseComments, List.mem_map] at hx
      obtain ⟨kv, hkv, hxeq⟩ := hx
      subst hxeq
      simpa using hnone kv hkv
    rw [lookupComment, hfilter]
    rfl
  · intro segs v hcs
    rw [hcomment, hcs]
    by_cases hpe : f.absolutePath = root ++ segs
    · rw [if_pos hpe]
      simp [lookupComment, normaliseComments, resolveKey, hpe]
    · rw [if_neg hpe]
      have hne : ¬ (root ++ segs = f.absolutePath) := fun h => hpe h.symm
      simp [lookupComment, normaliseComments, resolveKey, hne]

/-- C4 witness: in the worked example the relative key `docs` attaches the
comment `Documents` to `/share/docs` and the unmatched root gets `some ""`. -/
theorem c4_comment_overlay_witness :
    (∀ f ∈ exRes.folders,
      f.comment = some ((lookupComment (normaliseComments exOpts.comments ["share"])
        f.absolutePath).getD "")) ∧
    exDocsRec.comment = some "Documents" ∧ exRootRec.comment = some "" :=
  ⟨fun f hf => (c4_comment_overlay exFS exOpts ["share"] (by decide) (by decide)
    (by rfl) exRes exFS_scan f hf).1, rfl, rfl⟩

theorem exFS_nodup : NodupListings exFS := by
  intro p es h
  by_cases h1 : p = ["share"]
  · subst h1
    have he : exFS.listing ["share"] = .ok exEntRoot := rfl
    rw [he] at h
    injection h with h2
    subst h2
    decide
  · by_cases h2 : p = ["share", "docs"]
    · subst h2
      have he : exFS.listing ["share", "docs"] = .ok exEntDocs := rfl
      rw [he] at h
      injection h with h2
      subst h2
      decide
    · by_cases h3 : p = ["share", "locked"]
      · subst h3
        have he : exFS.listing ["share", "locked"] = .error "EACCES" := rfl
        rw [he] at h
        cases h
      · have he : exFS.listing p = .error "ENOENT" := by
          simp only [exFS, if_neg h1, if_neg h2, if_neg h3]
        rw [he] at h
        cases h

/-- C3: when a reached directory's listing fails, the scan still succeeds,
records exactly one warning pair for that directory (rendered as
`Skipped <path>: <cause>`), excludes the directory and its whole subtree from
the folder list, and still records every other reachable qualifying
directory. -/
theorem c3_listing_failure (fs : FS) (opts : ScanOptions) (root p : FsPath)
    (e : String) (d : Int)
    (hmd : 0 ≤ opts.maxDepth) (hmf : 0 ≤ opts.minFiles)
    (hr : fs.realpath opts.rootPath = .ok root) (hn : NodupListings fs)
    (hreach : Reaches fs opts.maxDepth root p d) (hd : ¬ opts.maxDepth < d)
    (hl : fs.listing p = .error e) (res : ScanResult)
    (hres : scanDirectory fs opts = .ok res) :
    res.warnings = (errList fs opts.maxDepth root 0).map (fun pe => skipMsg pe.1 pe.2) ∧
    skipMsg p e ∈ res.warnings ∧
    (errList fs opts.maxDepth root 0).countP (fun x => decide (x.1 = p)) = 1 ∧
    (∀ f ∈ res.folders, ¬ p <+: f.absolutePath) ∧
    (∀ (q : FsPath) (dq : Int) (es : List Dirent),
      Reaches fs opts.maxDepth root q dq → ¬ opts.maxDepth < dq →
      fs.listing q = .ok es → (dq = 0 ∨ opts.minFiles ≤ (countFiles es : Int)) →
      ∃ f ∈ res.folders, f.absolutePath = q ∧ f.depth = dq ∧
        f.fileCount = countFiles es) := by
  have h0 : ¬ opts.maxDepth < 0 := by omega
  have h1 : ¬ opts.minFiles < 0 := by omega
  rw [scanDirectory_eq_ok fs opts root h0 h1 hr] at hres
  injection hres with h2
  subst h2
  have hmemerr : (p, e) ∈ errList fs opts.maxDepth root 0 :=
    errList_mem_reached fs opts.maxDepth root opts.minFiles
      (normaliseComments opts.comments root) hreach hd hl
  have hwarn : (visit fs opts.maxDepth opts.minFiles root
      (normaliseComments opts.comments root) root 0).2 =
      (errList fs opts.maxDepth root 0).map (fun pe => skipMsg pe.1 pe.2) :=
    visit_warnings_eq_errList fs opts.maxDepth opts.minFiles root
      (normaliseComments opts.comments root) root 0
  refine ⟨hwarn, ?_, ?_, ?_, ?_⟩
  · rw [hwarn]
    exact List.mem_map.mpr ⟨(p, e), hmemerr, rfl⟩
  · have hle := errList_countP_le_one fs opts.maxDepth hn p root 0
    have hpos : 0 < (errList fs opts.maxDepth root 0).countP
        (fun x => decide (x.1 = p)) := by
      rw [List.countP_pos_iff]
      exact ⟨(p, e), hmemerr, by simp⟩
    omega
  · intro f hf
    simp only [List.mem_mergeSort] at hf
    apply no_folder_in_error_subtree fs opts.maxDepth opts.minFiles root
      (normaliseComments opts.comments root) hl root 0 ?_ f hf
    have hrp := (reaches_root_le hreach).1
    by_cases hpr : p <+: root
    · left
      have hlen1 := hpr.length_le
      have hlen2 := hrp.length_le
      exact List.IsPrefix.eq_of_length hrp (by omega)
    · right
      exact hpr
  · intro q dq es hq hdq hlq hcond
    refine ⟨scanRecord root (normaliseComments opts.comments root) q dq (countFiles es),
      ?_, rfl, rfl, rfl⟩
    simp only [List.mem_mergeSort]
    exact visit_records_reached fs opts.maxDepth opts.minFiles root
      (normaliseComments opts.comments root) hq hdq hlq hcond

unseal List.merge List.mergeSort in
/-- C3 witness: in the worked example, `/share/locked` fails with `EACCES`;
exactly one warning references it, no folder under it is recorded, and its
sibling `/share/docs` is still scanned. -/
theorem c3_listing_failure_witness :
    skipMsg ["share", "locked"] "EACCES" ∈ exRes.warnings ∧
    (∀ f ∈ exRes.folders, ¬ ["share", "locked"] <+: f.absolutePath) ∧
    (errList exFS 2 ["share"] 0).countP
      (fun x => decide (x.1 = ["share", "locked"])) = 1 ∧
    (∃ f ∈ exRes.folders, f.absolutePath = ["share", "docs"] ∧ f.depth = 1 ∧
      f.fileCount = countFiles exEntDocs) := by
  have hreach : Reaches exFS exOpts.maxDepth ["share"] ["share", "locked"] (0 + 1) :=
    Reaches.step Reaches.base (by decide) (by rfl)
      (by rw [exFS_childDirs_root]; decide)
  have h := c3_listing_failure exFS exOpts ["share"] ["share", "locked"] "EACCES" 1
    (by decide) (by decide) (by rfl) exFS_nodup hreach (by decide) (by rfl)
    exRes exFS_scan
  refine ⟨h.2.1, h.2.2.2.1, h.2.2.1, ?_⟩
  have hreach2 : Reaches exFS exOpts.maxDepth ["share"] ["share", "docs"] (0 + 1) :=
    Reaches.step Reaches.base (by decide) (by rfl)
      (by rw [exFS_childDirs_root]; decide)
  exact h.2.2.2.2 ["share", "docs"] 1 exEntDocs hreach2 (by decide) (by rfl)
    (Or.inr (by decide))

/-- C8: the traversal never descends through a symbolic-link directory entry:
every visited directory other than the root was reached through an entry with
`isDirectory` and not `isSymbolicLink`, all visits stay under the root within
the depth budget (so the visit list is finite and the traversal terminates
even if a symlink points back into the tree), and every recorded folder is
one of these visits. -/
theorem c8_no_symlink_descent (fs : FS) (maxDepth : Int) (root : FsPath)
    (hmd : 0 ≤ maxDepth) :
    (∀ q ∈ visitedPaths fs maxDepth root 0,
      root <+: q ∧ (q.length : Int) ≤ root.length + maxDepth ∧
      (q = root ∨ ∃ parent es ent, fs.listing parent = .ok es ∧ ent ∈ es ∧
        ent.isDirectory = true ∧ ent.isSymbolicLink = false ∧
        q = parent ++ [ent.name])) ∧
    (∀ (minFiles : Int) (cm : List (FsPath × String)) (f : FolderInfo),
      f ∈ (visit fs maxDepth minFiles root cm root 0).1 →
        f.absolutePath ∈ visitedPaths fs maxDepth root 0) := by
  constructor
  · intro q hq
    have := mem_visitedPaths fs maxDepth root 0 q hq
    exact ⟨this.1, by omega, this.2.2⟩
  · intro minFiles cm f hf
    exact visit_folders_sub_visited fs maxDepth minFiles root cm root 0 f hf

/-- C8 witness: the worked example contains a symlinked directory entry
(`link`, a cycle back into the tree); the theorem applies to it. -/
theorem c8_no_symlink_descent_witness :
    ({ name := "link", isFile := false, isDirectory := true,
       isSymbolicLink := true } : Dirent) ∈ exEntRoot ∧
    (∀ q ∈ visitedPaths exFS 2 ["share"] 0,
      ["share"] <+: q ∧ (q.length : Int) ≤ 1 + 2 ∧
      (q = ["share"] ∨ ∃ parent es ent, exFS.listing parent = .ok es ∧ ent ∈ es ∧
        ent.isDirectory = true ∧ ent.isSymbolicLink = false ∧
        q = parent ++ [ent.name])) := by
  constructor
  · decide
  · have h := (c8_no_symlink_descent exFS 2 ["share"] (by decide)).1
    intro q hq
    have := h q hq
    exact ⟨this.1, by simpa using this.2.1, this.2.2⟩

theorem splitCsv_nil (acc : List Char) (inQ : Bool) :
    splitCsv acc inQ [] = [acc.reverse] := by
  rw [splitCsv]

theorem splitCsv_quoted_qq (acc cs2 : List Char) :
    splitCsv acc true ('"' :: '"' :: cs2) = splitCsv ('"' :: acc) true cs2 := by
  rw [splitCsv]
  simp

theorem splitCsv_quoted_q (acc cs : List Char) (h : cs.head? ≠ some '"') :
    splitCsv acc true ('"' :: cs) = splitCsv acc false cs := by
  rw [splitCsv]
  simp [h]

theorem splitCsv_quoted_char (acc : List Char) (c : Char) (cs : List Char)
    (h : ¬ c = '"') :
    splitCsv acc true (c :: cs) = splitCsv (c :: acc) true cs := by
  rw [splitCsv]
  simp [h]

theorem splitCsv_unq_comma (acc cs : List Char) :
    splitCsv acc false (',' :: cs) = acc.reverse :: splitCsv [] false cs := by
  rw [splitCsv]
  simp

theorem splitCsv_unq_quote (acc cs : List Char) :
    splitCsv acc false ('"' :: cs) = splitCsv acc true cs := by
  rw [splitCsv]
  simp

theorem splitCsv_unq_char (acc : List Char) (c : Char) (cs : List Char)
    (h1 : ¬ c = ',') (h2 : ¬ c = '"') :
    splitCsv acc false (c :: cs) = splitCsv (c :: acc) false cs := by
  rw [splitCsv]
  simp [h1, h2]

/-- Reading a quoted field body: the doubled quotes collapse and the closing
quote leaves quoted mode. -/
theorem splitCsv_quoted_body (v : List Char) :
    ∀ (acc rest : List Char), rest.head? ≠ some '"' →
      splitCsv acc true (doubleQuotes v ++ '"' :: rest) =
        splitCsv (v.reverse ++ acc) false rest := by
  induction v with
  | nil =>
      intro acc rest h
      rw [doubleQuotes]
      simpa using splitCsv_quoted_q acc rest h
  | cons c v ih =>
      intro acc rest h
      by_cases hc : c = '"'
      · subst hc
        rw [doubleQuotes, if_pos rfl]
        rw [List.cons_append, List.cons_append, splitCsv_quoted_qq, ih ('"' :: acc) rest h]
        simp
      · rw [doubleQuotes, if_neg hc, List.cons_append,
          splitCsv_quoted_char acc c _ hc, ih (c :: acc) rest h]
        simp

/-- Reading an unquoted field body (no comma or quote in it). -/
theorem splitCsv_unquoted_body (v : List Char)
    (hv : ∀ c ∈ v, ¬ c = ',' ∧ ¬ c = '"') :
    ∀ (acc rest : List Char),
      splitCsv acc false (v ++ rest) = splitCsv (v.reverse ++ acc) false rest := by
  induction v with
  | nil => intro acc rest; simp
  | cons c v ih =>
      intro acc rest
      have hc := hv c (List.mem_cons_self c v)
      rw [List.cons_append, splitCsv_unq_char acc c _ hc.1 hc.2]
      rw [ih (fun x hx => hv x (List.mem_cons_of_mem c hx)) (c :: acc) rest]
      simp

/-- Parsing the escaped, comma-joined form of a nonempty field list recovers
the fields. -/
theorem splitCsv_joinEscaped :
    ∀ (fields : List (List Char)), fields ≠ [] →
      splitCsv [] false (joinEscaped fields) = fields := by
  intro fields
  induction fields with
  | nil => intro h; exact absurd rfl h
  | cons v vs ih =>
      intro _
      cases vs with
      | nil =>
          rw [joinEscaped, escapeData]
          by_cases hq : v.any isCsvSpecial
          · rw [if_pos hq]
            rw [splitCsv_unq_quote]
            rw [show doubleQuotes v ++ ['"'] = doubleQuotes v ++ '"' :: [] from rfl]
            rw [splitCsv_quoted_body v [] [] (by simp)]
            simp [splitCsv_nil]
          · rw [if_neg hq]
            have hv : ∀ c ∈ v, ¬ c = ',' ∧ ¬ c = '"' := by
              intro c hc
              rw [Bool.not_eq_true, List.any_eq_false] at hq
              have h2 := hq c hc
              simp [isCsvSpecial] at h2
              exact ⟨h2.2.1, h2.1⟩
            have hb := splitCsv_unquoted_body v hv [] []
            rw [List.append_nil] at hb
            rw [hb]
            simp [splitCsv_nil]
      | cons w ws =>
          rw [joinEscaped, escapeData]
          by_cases hq : v.any isCsvSpecial
          · rw [if_pos hq]
            rw [List.cons_append, splitCsv_unq_quote]
            rw [show (doubleQuotes v ++ ['"']) ++ ',' :: joinEscaped (w :: ws) =
              doubleQuotes v ++ '"' :: ',' :: joinEscaped (w :: ws) by simp]
            rw [splitCsv_quoted_body v [] (',' :: joinEscaped (w :: ws)) (by simp)]
            rw [List.append_nil, splitCsv_unq_comma]
            rw [ih (List.cons_ne_nil w ws)]
            simp
          · rw [if_neg hq]
            have hv : ∀ c ∈ v, ¬ c = ',' ∧ ¬ c = '"' := by
              intro c hc
              rw [Bool.not_eq_true, List.any_eq_false] at hq
              have h2 := hq c hc
              simp [isCsvSpecial] at h2
              exact ⟨h2.2.1, h2.1⟩
            have hb := splitCsv_unquoted_body v hv [] (',' :: joinEscaped (w :: ws))
            rw [hb, List.append_nil, splitCsv_unq_comma, ih (List.cons_ne_nil w ws)]
            simp

theorem digitChar_not_special (m : Nat) (h : m < 10) :
    isCsvSpecial (Nat.digitChar m) = false := by
  interval_cases m <;> decide

theorem toDigitsCore_not_special :
    ∀ (fuel n : Nat) (ds : List Char),
      (∀ c ∈ ds, isCsvSpecial c = false) →
      ∀ c ∈ Nat.toDigitsCore 10 fuel n ds, isCsvSpecial c = false := by
  intro fuel
  induction fuel with
  | zero =>
      intro n ds h c hc
      rw [Nat.toDigitsCore] at hc
      exact h c hc
  | succ fuel ih =>
      intro n ds h c hc
      rw [Nat.toDigitsCore] at hc
      by_cases hn : n / 10 = 0
      · rw [if_pos hn] at hc
        rcases List.mem_cons.mp hc with hc | hc
        · subst hc
          exact digitChar_not_special _ (Nat.mod_lt n (by omega))
        · exact h c hc
      · rw [if_neg hn] at hc
        refine ih (n / 10) (Nat.digitChar (n % 10) :: ds) ?_ c hc
        intro x hx
        rcases List.mem_cons.mp hx with hx | hx
        · subst hx
          exact digitChar_not_special _ (Nat.mod_lt n (by omega))
        · exact h x hx

theorem natRepr_not_special (n : Nat) :
    ∀ c ∈ (Nat.repr n).data, isCsvSpecial c = false := by
  intro c hc
  have : (Nat.repr n).data = Nat.toDigitsCore 10 (n + 1) n [] := rfl
  rw [this] at hc
  exact toDigitsCore_not_special (n + 1) n [] (by simp) c hc

theorem intToString_not_special (i : Int) :
    ∀ c ∈ (toString i).data, isCsvSpecial c = false := by
  intro c hc
  cases i with
  | ofNat m =>
      have : toString (Int.ofNat m) = Nat.repr m := rfl
      rw [this] at hc
      exact natRepr_not_special m c hc
  | negSucc m =>
      have : toString (Int.negSucc m) = "-" ++ Nat.repr (m + 1) := rfl
      rw [this, String.data_append] at hc
      rcases List.mem_append.mp hc with hc | hc
      · simp at hc
        subst hc
        decide
      · exact natRepr_not_special (m + 1) c hc

theorem natToString_not_special (n : Nat) :
    ∀ c ∈ (toString n).data, isCsvSpecial c = false := by
  intro c hc
  exact natRepr_not_special n c hc

theorem escapeData_of_no_special (l : List Char)
    (h : ∀ c ∈ l, isCsvSpecial c = false) : escapeData l = l := by
  rw [escapeData, if_neg]
  rw [Bool.not_eq_true, List.any_eq_false]
  intro c hc
  simp [h c hc]

theorem data_intercalate_go (s : String) :
    ∀ (l : List String) (acc : String),
      (String.intercalate.go acc s l).data =
        acc.data ++ (l.map (fun r => s.data ++ r.data)).flatten := by
  intro l
  induction l with
  | nil =>
      intro acc
      rw [String.intercalate.go]
      simp
  | cons a as ih =>
      intro acc
      rw [String.intercalate.go, ih]
      simp [String.data_append]

theorem data_intercalate_cons (s h : String) (rows : List String) :
    (String.intercalate s (h :: rows)).data =
      h.data ++ (rows.map (fun r => s.data ++ r.data)).flatten := by
  rw [String.intercalate]
  exact data_intercalate_go s rows h

theorem flatten_sep_shift {α : Type} (sep : List Char) (g : α → List Char) :
    ∀ (l : List α),
      (l.map (fun r => sep ++ g r)).flatten ++ sep =
        sep ++ (l.map (fun r => g r ++ sep)).flatten := by
  intro l
  induction l with
  | nil => simp
  | cons a as ih => simp [ih]

theorem csvRow_data (f : FolderInfo) :
    (csvRow f).data =
      joinEscaped [(folderLabel f).data, (pathToString f.absolutePath).data,
        (toString f.depth).data, (toString f.fileCount).data,
        ((f.comment.getD "")).data] := by
  rw [csvRow, data_intercalate_cons]
  rw [joinEscaped, joinEscaped, joinEscaped, joinEscaped, joinEscaped]
  rw [escapeData_of_no_special _ (intToString_not_special f.depth),
    escapeData_of_no_special _ (natToString_not_special f.fileCount)]
  simp [csvEscape]

/-- C5: the tabular renderer emits exactly the header line, one line per
folder in authoritative sort order, with a trailing newline, escaping fields
that contain a comma, quote, or newline by quote-wrapping with doubled
quotes; parsing any emitted data row back yields the original field strings. -/
theorem c5_render_csv (res : ScanResult) :
    (renderCsv res).data =
      ("folder,absolute_path,depth,file_count,comment\n").data ++
        ((res.folders.mergeSort labelLe).map (fun f => (csvRow f).data ++ ['\n'])).flatten ∧
    ∀ f : FolderInfo,
      parseCsvLine (csvRow f) =
        [folderLabel f, pathToString f.absolutePath, toString f.depth,
         toString f.fileCount, f.comment.getD ""] := by
  constructor
  · rw [renderCsv, String.data_append, data_intercalate_cons]
    rw [List.append_assoc, List.map_map]
    rw [show ((fun r => ("\n" : String).data ++ String.data r) ∘ csvRow) =
      (fun f => ("\n" : String).data ++ (csvRow f).data) from rfl]
    rw [flatten_sep_shift ("\n").data (fun f => (csvRow f).data)
      (res.folders.mergeSort labelLe)]
    rw [← List.append_assoc]
    have hh : ("folder,absolute_path,depth,file_count,comment").data ++ ("\n").data =
        ("folder,absolute_path,depth,file_count,comment\n").data := by decide
    rw [hh]
  · intro f
    rw [parseCsvLine, csvRow_data, splitCsv_joinEscaped _ (by simp)]
    rfl

theorem renderOutline_eq (cs : List (String × TreeNode)) :
    renderOutline (.node cs) =
      if cs.isEmpty then "<p>No folders met the criteria.</p>"
      else
        "<ul>" ++ String.join ((cs.mergeSort entryLe).map
          (fun e => "<li><span class=\"folder\">" ++ escapeHtml e.1 ++ "</span>" ++
            renderOutline e.2 ++ "</li>")) ++ "</ul>" := by
  rw [renderOutline, List.attach_map_val (cs.mergeSort entryLe)
    (fun e => "<li><span class=\"folder\">" ++ escapeHtml e.1 ++ "</span>" ++
      renderOutline e.2 ++ "</li>")]

unseal List.merge List.mergeSort in
/-- C9: building the prefix tree from labels `Finance`, `Finance/Invoices`,
`HR/Policies` nests `Invoices` under `Finance` and `Policies` under a
top-level `HR`, and the outline renders the siblings in lexical order
(`Finance` before `HR`); a childless node renders the empty-outline
paragraph as its body. -/
theorem c9_outline_nesting :
    buildTree c9Folders =
      .node [("Finance", .node [("Invoices", .node [])]),
             ("HR", .node [("Policies", .node [])])] ∧
    renderOutline (buildTree c9Folders) =
      "<ul>" ++
        "<li><span class=\"folder\">Finance</span>" ++
          "<ul><li><span class=\"folder\">Invoices</span>" ++
            "<p>No folders met the criteria.</p></li></ul>" ++
        "</li>" ++
        "<li><span class=\"folder\">HR</span>" ++
          "<ul><li><span class=\"folder\">Policies</span>" ++
            "<p>No folders met the criteria.</p></li></ul>" ++
        "</li>" ++
      "</ul>" := by
  have htree : buildTree c9Folders =
      .node [("Finance", .node [("Invoices", .node [])]),
             ("HR", .node [("Policies", .node [])])] := rfl
  refine ⟨htree, ?_⟩
  rw [htree]
  have hleaf : renderOutline (.node []) = "<p>No folders met the criteria.</p>" := by
    rw [renderOutline_eq]
    rfl
  have hinv : renderOutline (.node [("Invoices", TreeNode.node [])]) =
      "<ul><li><span class=\"folder\">Invoices</span><p>No folders met the criteria.</p></li></ul>" := by
    rw [renderOutline_eq, if_neg (by decide)]
    rw [show ([("Invoices", TreeNode.node [])].mergeSort entryLe) =
      [("Invoices", TreeNode.node [])] from rfl]
    simp only [List.map_cons, List.map_nil, hleaf]
    rfl
  have hpol : renderOutline (.node [("Policies", TreeNode.node [])]) =
      "<ul><li><span class=\"folder\">Policies</span><p>No folders met the criteria.</p></li></ul>" := by
    rw [renderOutline_eq, if_neg (by decide)]
    rw [show ([("Policies", TreeNode.node [])].mergeSort entryLe) =
      [("Policies", TreeNode.node [])] from rfl]
    simp only [List.map_cons, List.map_nil, hleaf]
    rfl
  rw [renderOutline_eq, if_neg (by decide)]
  rw [show ([("Finance", TreeNode.node [("Invoices", TreeNode.node [])]),
             ("HR", TreeNode.node [("Policies", TreeNode.node [])])].mergeSort entryLe) =
      [("Finance", TreeNode.node [("Invoices", TreeNode.node [])]),
       ("HR", TreeNode.node [("Policies", TreeNode.node [])])] from rfl]
  simp only [List.map_cons, List.map_nil, hinv, hpol]
  rfl

/-- The outline document is its fixed prefix, then the escaped timestamp,
then its fixed suffix (both independent of the clock). -/
theorem renderHtml_decomp (result : ScanResult) (opts : ScanOptions) (now : String) :
    renderHtml result opts now =
      renderHtmlPre result opts ++ escapeHtml now ++ renderHtmlPost result opts := by
  rw [renderHtml, renderHtmlPre, renderHtmlPost]
  simp only [String.append_assoc]

theorem append_middle_cancel (a x y b : String) (h : a ++ x ++ b = a ++ y ++ b) :
    x = y := by
  have hd := congrArg String.data h
  simp only [String.data_append] at hd
  rw [List.append_assoc, List.append_assoc] at hd
  have h2 := List.append_cancel_left hd
  have h3 := List.append_cancel_right h2
  cases x
  cases y
  exact congrArg String.mk (by simpa using h3)

/-- C6 (amended): the tabular renderer takes no timestamp input, so two
invocations on the same ScanResult are byte-identical by construction; two
invocations of the outline renderer share the same prefix and suffix and
differ only in the escaped `Generated` timestamp — so the outline document,
like the structured document, is byte-identical only up to its timestamp
field. -/
theorem c6_renderer_determinism (res : ScanResult) (opts : ScanOptions)
    (now1 now2 : String) :
    renderCsv res = renderCsv res ∧
    renderHtml res opts now1 =
      renderHtmlPre res opts ++ escapeHtml now1 ++ renderHtmlPost res opts ∧
    renderHtml res opts now2 =
      renderHtmlPre res opts ++ escapeHtml now2 ++ renderHtmlPost res opts :=
  ⟨rfl, renderHtml_decomp res opts now1, renderHtml_decomp res opts now2⟩

/-- C6 (counterexample): two invocations of the outline renderer on the same
ScanResult, one second apart, produce different bytes — the embedded
`Generated` timestamp differs, refuting byte-identity as claimed. -/
theorem c6_counterexample :
    renderHtml { folders := [], warnings := [] } exOpts "2024-05-01T10:00:00.000Z" ≠
      renderHtml { folders := [], warnings := [] } exOpts "2024-05-01T10:00:01.000Z" := by
  intro h
  rw [renderHtml_decomp, renderHtml_decomp] at h
  have h2 := append_middle_cancel _ _ _ _ h
  have h3 : escapeHtml "2024-05-01T10:00:00.000Z" ≠ escapeHtml "2024-05-01T10:00:01.000Z" := by
    decide
  exact h3 h2

theorem payloadsOf_eq (result : ScanResult) (opts : RunOptions) (now : String) :
    payloadsOf result opts now =
      opts.formats.filterMap (payloadFor result opts now) := by
  rw [payloadsOf]
  have hgen : ∀ (l : List String) (acc : List (String × String)),
      l.foldl (fun acc format =>
        if format = "json" then acc ++ [("json", renderJson result opts.toScanOptions now)]
        else if format = "html" then acc ++ [("html", renderHtml result opts.toScanOptions now)]
        else if format = "csv" then acc ++ [("csv", renderCsv result)]
        else acc) acc =
      acc ++ l.filterMap (payloadFor result opts now) := by
    intro l
    induction l with
    | nil => intro acc; simp
    | cons f l ih =>
        intro acc
        rw [List.foldl_cons, List.filterMap_cons, ih]
        rw [payloadFor]
        by_cases h1 : f = "json"
        · simp [h1]
        · by_cases h2 : f = "html"
          · simp [h1, h2]
          · by_cases h3 : f = "csv"
            · simp [h1, h2, h3]
            · simp [h1, h2, h3]
  simpa using hgen opts.formats []

theorem payloads_formats (result : ScanResult) (opts : RunOptions) (now : String) :
    (payloadsOf result opts now).map Prod.fst =
      opts.formats.filter (fun f => f = "json" ∨ f = "html" ∨ f = "csv") := by
  rw [payloadsOf_eq]
  induction opts.formats with
  | nil => simp
  | cons f l ih =>
      rw [List.filterMap_cons, List.filter_cons]
      rw [payloadFor]
      by_cases h1 : f = "json"
      · simp [h1, ih]
      · by_cases h2 : f = "html"
        · simp [h1, h2, ih]
        · by_cases h3 : f = "csv"
          · simp [h1, h2, h3, ih]
          · simp [h1, h2, h3, ih]

theorem foldl_writeStep_json (baseFile : String) :
    ∀ (ps : List (String × String)) (o : WrittenFiles),
      (ps.foldl (writeStep baseFile) o).json =
        if "json" ∈ ps.map Prod.fst then some (baseFile ++ "." ++ "json")
        else o.json := by
  intro ps
  induction ps with
  | nil => intro o; simp
  | cons p ps ih =>
      intro o
      rw [List.foldl_cons, ih, List.map_cons]
      by_cases h1 : p.1 = "json"
      · have hstep : (writeStep baseFile o p).json = some (baseFile ++ "." ++ "json") := by
          rw [writeStep]
          simp [h1]
        rw [hstep, h1, if_pos (List.mem_cons_self _ _)]
        split <;> rfl
      · have hstep : (writeStep baseFile o p).json = o.json := by
          rw [writeStep]
          by_cases h2 : p.1 = "html"
          · simp [h1, h2]
          · by_cases h3 : p.1 = "csv"
            · simp [h1, h2, h3]
            · simp [h1, h2, h3]
        rw [hstep]
        have hne : (("json" : String) ∈ p.1 :: ps.map Prod.fst) ↔
            ("json" : String) ∈ ps.map Prod.fst := by
          constructor
          · intro h
            rcases List.mem_cons.mp h with h | h
            · exact absurd h.symm h1
            · exact h
          · exact fun h => List.mem_cons_of_mem _ h
        simp only [hne]

theorem foldl_writeStep_html (baseFile : String) :
    ∀ (ps : List (String × String)) (o : WrittenFiles),
      (ps.foldl (writeStep baseFile) o).html =
        if "html" ∈ ps.map Prod.fst then some (baseFile ++ "." ++ "html")
        else o.html := by
  intro ps
  induction ps with
  | nil => intro o; simp
  | cons p ps ih =>
      intro o
      rw [List.foldl_cons, ih, List.map_cons]
      by_cases h1 : p.1 = "html"
      · have hstep : (writeStep baseFile o p).html = some (baseFile ++ "." ++ "html") := by
          rw [writeStep]
          simp [h1]
        rw [hstep, h1, if_pos (List.mem_cons_self _ _)]
        split <;> rfl
      · have hstep : (writeStep baseFile o p).html = o.html := by
          rw [writeStep]
          by_cases h2 : p.1 = "json"
          · simp [h1, h2]
          · by_cases h3 : p.1 = "csv"
            · simp [h1, h2, h3]
            · simp [h1, h2, h3]
        rw [hstep]
        have hne : (("html" : String) ∈ p.1 :: ps.map Prod.fst) ↔
            ("html" : String) ∈ ps.map Prod.fst := by
          constructor
          · intro h
            rcases List.mem_cons.mp h with h | h
            · exact absurd h.symm h1
            · exact h
          · exact fun h => List.mem_cons_of_mem _ h
        simp only [hne]

theorem foldl_writeStep_csv (baseFile : String) :
    ∀ (ps : List (String × String)) (o : WrittenFiles),
      (ps.foldl (writeStep baseFile) o).csv =
        if "csv" ∈ ps.map Prod.fst then some (baseFile ++ "." ++ "csv")
        else o.csv := by
  intro ps
  induction ps with
  | nil => intro o; simp
  | cons p ps ih =>
      intro o
      rw [List.foldl_cons, ih, List.map_cons]
      by_cases h1 : p.1 = "csv"
      · have hstep : (writeStep baseFile o p).csv = some (baseFile ++ "." ++ "csv") := by
          rw [writeStep]
          by_cases h2 : p.1 = "json"
          · rw [h2] at h1
            simp at h1
          · by_cases h3 : p.1 = "html"
            · rw [h3] at h1
              simp at h1
            · simp [h1, h2, h3]
        rw [hstep, h1, if_pos (List.mem_cons_self _ _)]
        split <;> rfl
      · have hstep : (writeStep baseFile o p).csv = o.csv := by
          rw [writeStep]
          by_cases h2 : p.1 = "json"
          · simp [h1, h2]
          · by_cases h3 : p.1 = "html"
            · simp [h1, h2, h3]
            · simp [h1, h2, h3]
        rw [hstep]
        have hne : (("csv" : String) ∈ p.1 :: ps.map Prod.fst) ↔
            ("csv" : String) ∈ ps.map Prod.fst := by
          constructor
          · intro h
            rcases List.mem_cons.mp h with h | h
            · exact absurd h.symm h1
            · exact h
          · exact fun h => List.mem_cons_of_mem _ h
        simp only [hne]

theorem mem_payload_formats (result : ScanResult) (opts : RunOptions) (now : String)
    (fmt : String) (hfmt : fmt = "json" ∨ fmt = "html" ∨ fmt = "csv") :
    (fmt ∈ (payloadsOf result opts now).map Prod.fst) ↔ fmt ∈ opts.formats := by
  rw [payloads_formats]
  rw [List.mem_filter]
  constructor
  · exact fun h => h.1
  · intro h
    exact ⟨h, by simp [hfmt]⟩

/-- C10: when the scan succeeds, `runAndWrite` succeeds and its written-files
map holds exactly the recognised formats among `options.formats` (`json`,
`html`, `csv`), each mapped to `outputBasePath` with its final extension
stripped plus `.<format>`; every other format string is skipped silently —
no entry and no error. -/
theorem c10_run_and_write (fs : FS) (now : String) (opts : RunOptions)
    (res : ScanResult) (hres : scanDirectory fs opts.toScanOptions = .ok res) :
    runAndWrite fs now opts = .ok
      { result := res
        writtenFiles :=
          { json := if "json" ∈ opts.formats then
              some (basePathWithoutExtension opts.outputBasePath ++ ".json") else none
            html := if "html" ∈ opts.formats then
              some (basePathWithoutExtension opts.outputBasePath ++ ".html") else none
            csv := if "csv" ∈ opts.formats then
              some (basePathWithoutExtension opts.outputBasePath ++ ".csv") else none } } := by
  have hwExt : ∀ (w1 w2 : WrittenFiles), w1.json = w2.json → w1.html = w2.html →
      w1.csv = w2.csv → w1 = w2 := by
    intro w1 w2 hj hh hc
    cases w1
    cases w2
    cases hj
    cases hh
    cases hc
    rfl
  have hrun : runAndWrite fs now opts = .ok
      { result := res
        writtenFiles := (payloadsOf res opts now).foldl
          (writeStep (basePathWithoutExtension opts.outputBasePath))
          ⟨none, none, none⟩ } := by
    rw [runAndWrite, hres]
  rw [hrun]
  refine congrArg Except.ok (congrArg (RunResponse.mk res) ?_)
  have hj := foldl_writeStep_json (basePathWithoutExtension opts.outputBasePath)
    (payloadsOf res opts now) ⟨none, none, none⟩
  have hh := foldl_writeStep_html (basePathWithoutExtension opts.outputBasePath)
    (payloadsOf res opts now) ⟨none, none, none⟩
  have hc := foldl_writeStep_csv (basePathWithoutExtension opts.outputBasePath)
    (payloadsOf res opts now) ⟨none, none, none⟩
  simp only [mem_payload_formats res opts now "json" (Or.inl rfl)] at hj
  simp only [mem_payload_formats res opts now "html" (Or.inr (Or.inl rfl))] at hh
  simp only [mem_payload_formats res opts now "csv" (Or.inr (Or.inr rfl))] at hc
  apply hwExt
  · rw [hj]
    by_cases hm : "json" ∈ opts.formats
    · rw [if_pos hm, if_pos hm, String.append_assoc]
      exact congrArg (fun t => some (basePathWithoutExtension opts.outputBasePath ++ t))
        (by decide : ("." ++ "json" : String) = ".json")
    · rw [if_neg hm, if_neg hm]
  · rw [hh]
    by_cases hm : "html" ∈ opts.formats
    · rw [if_pos hm, if_pos hm, String.append_assoc]
      exact congrArg (fun t => some (basePathWithoutExtension opts.outputBasePath ++ t))
        (by decide : ("." ++ "html" : String) = ".html")
    · rw [if_neg hm, if_neg hm]
  · rw [hc]
    by_cases hm : "csv" ∈ opts.formats
    · rw [if_pos hm, if_pos hm, String.append_assoc]
      exact congrArg (fun t => some (basePathWithoutExtension opts.outputBasePath ++ t))
        (by decide : ("." ++ "csv" : String) = ".csv")
    · rw [if_neg hm, if_neg hm]

/-- C10 witness: the example run writes `report.json` and `report.csv` next
to the stripped base path, records no `html` entry, and silently skips
`docx`. -/
theorem c10_run_and_write_witness :
    runAndWrite exFS "2024-05-01T10:00:00.000Z" exRun = .ok
      { result := exRes
        writtenFiles :=
          { json := some "/out/report.json", html := none,
            csv := some "/out/report.csv" } } := by
  have h := c10_run_and_write exFS "2024-05-01T10:00:00.000Z" exRun exRes exFS_scan
  rw [h]
  refine congrArg Except.ok (congrArg (RunResponse.mk exRes) ?_)
  decide
